import Mathlib

/-!
# ein-dev/logger : a shallow embedding of `src/logger/logger.h` and `src/my_logger.h`

Data model (LP64): `int` is a 32-bit and `std::time_t` a 64-bit two's-complement
integer.  Both are embedded as `Int`; every narrowing conversion and every
arithmetic result that is stored in a machine integer goes through `wrapInt`
(32 bits) or `wrapTime` (64 bits).  `%` and `/` of C++ truncate towards zero
and are embedded as `Int.tmod` and `Int.tdiv`.  `std::basic_string<TChar>` is
embedded as `List Char`.

Reference parameters (`int& year`) are embedded as results; a reference that a
function may leave untouched is passed in and handed back.  The `while (true)`
scan of `calcYear` takes an explicit fuel and returns `none` when it runs out.

The system clock is a parameter wherever `std::time` is read.  The static
pointer `Logger::m_instance` is explicit state, `none` until `create` has run;
a stage type is given as its filter and its sink class, and the construction
of the chain on the first use of `instance()` runs the constructor of each
sink.
-/

set_option linter.dupNamespace false

namespace Logger

/-! ## Machine integers -/

/-- Value of a mathematical integer once stored in a 32-bit `int`. -/
def wrapInt (x : Int) : Int := (x + 2147483648) % 4294967296 - 2147483648

/-- Value of a mathematical integer once stored in a 64-bit `std::time_t`. -/
def wrapTime (x : Int) : Int :=
  (x + 9223372036854775808) % 18446744073709551616 - 9223372036854775808

/-- Value of a signed integer once converted to the 64-bit unsigned `size_t`. -/
def toSizeT (x : Int) : Nat := (x % 18446744073709551616).toNat

/-! ## `enum class Level` -/

/-- Logger message priorities (`enum class Level`). -/
inductive Level where
  | TRACE | DEBUG | INFO | WARN | ERROR | FATAL
  deriving DecidableEq, Repr

/-- The enumerator value, `static_cast<int>(id)`. -/
def Level.toInt : Level → Int
  | .TRACE => 0
  | .DEBUG => 1
  | .INFO => 2
  | .WARN => 3
  | .ERROR => 4
  | .FATAL => 5

/-- The character string type, `std::basic_string<TChar>`. -/
abbrev LogString := List Char

/-! ## `class DateTime` -/

/-- The only data member of `DateTime`: `std::time_t m_time`. -/
structure DateTime where
  m_time : Int
  deriving DecidableEq, Repr

namespace DateTime

/-- Constant `SEC_IN_DAY = 24 * 60 * 60`. -/
def SEC_IN_DAY : Int := 24 * 60 * 60
/-- Constant `SEC_IN_HOUR = 60 * 60`. -/
def SEC_IN_HOUR : Int := 60 * 60
/-- Constant `SEC_IN_MINUTE = 60`. -/
def SEC_IN_MINUTE : Int := 60
/-- Constant `BASE_YEAR = 1970`. -/
def BASE_YEAR : Int := 1970

/-- Constructor `DateTime(int deltaUTC = 0, const std::time_t t = 0)`.
`clock` is the value `std::time(&m_time)` stores, read only when `t == 0`. -/
def new (clock : Int) (deltaUTC : Int) (t : Int) : DateTime :=
  let m_time := if t = 0 then clock else t
  ⟨wrapTime (m_time + wrapTime (deltaUTC * SEC_IN_HOUR))⟩

/-- Method `time(int& hour, int& minute, int& second)`; the result is
`(hour, minute, second)`. -/
def time (dt : DateTime) : Int × Int × Int :=
  let secInCurrentDay := wrapInt (dt.m_time.tmod SEC_IN_DAY)
  let secInCurrentHour := wrapInt (secInCurrentDay.tmod SEC_IN_HOUR)
  let hour := wrapInt (secInCurrentDay.tdiv SEC_IN_HOUR)
  let minute := wrapInt (secInCurrentHour.tdiv SEC_IN_MINUTE)
  let second := wrapInt (secInCurrentHour.tmod SEC_IN_MINUTE)
  (hour, minute, second)

/-- Method `isLeapYear(const int year)`. -/
def isLeapYear (year : Int) : Bool :=
  if (year.tmod 4 = 0 ∧ year.tmod 100 ≠ 0) ∨ year.tmod 400 = 0 then true else false

/-- Method `daysInYear(const int year)`. -/
def daysInYear (year : Int) : Int :=
  if isLeapYear year then 366 else 365

/-- The table `static const int numDays[12]` of `daysInMonth`. -/
def numDays : List Int := [31, 28, 31, 30, 31, 30, 31, 31, 30, 31, 30, 31]

/-- Method `daysInMonth(const int month, const bool isLeap)`. -/
def daysInMonth (month : Int) (isLeap : Bool) : Int :=
  if month ≤ 0 ∨ month > 12 then 0
  else if month = 2 ∧ isLeap = true then wrapInt (numDays.getD (month - 1).toNat 0 + 1)
  else numDays.getD (month - 1).toNat 0

/-- The loop body of `calcYear`, iterated: the state is `(sumDays, currentYear)`,
the result is `(year, overDays)`; `none` when the fuel runs out before the
`return` is reached. -/
def calcYearLoop (totalDays : Int) : Nat → Int → Int → Option (Int × Int)
  | 0, _, _ => none
  | fuel + 1, sumDays, currentYear =>
    let daysInCurrentYear := daysInYear currentYear
    if wrapInt (sumDays + daysInCurrentYear) ≤ totalDays then
      calcYearLoop totalDays fuel (wrapInt (sumDays + daysInCurrentYear)) (wrapInt (currentYear + 1))
    else
      some (currentYear, wrapInt (totalDays - sumDays))

/-- Method `calcYear(const int totalDays, int& year, int& overDays)`; the result
is `(year, overDays)`. -/
def calcYear (fuel : Nat) (totalDays : Int) : Option (Int × Int) :=
  calcYearLoop totalDays fuel 0 BASE_YEAR

/-- The `for` loop of `calcMonth` from `currentMonth` on, `n` bounding the
iterations left; `none` when the loop ends without the assignment. -/
def calcMonthLoop (totalDays : Int) (isLeap : Bool) : Nat → Int → Int → Option (Int × Int)
  | 0, _, _ => none
  | n + 1, sumDays, currentMonth =>
    if currentMonth ≤ 12 then
      let daysInCurrentMonth := daysInMonth currentMonth isLeap
      if wrapInt (sumDays + daysInCurrentMonth) ≤ totalDays then
        calcMonthLoop totalDays isLeap n (wrapInt (sumDays + daysInCurrentMonth))
          (wrapInt (currentMonth + 1))
      else
        some (currentMonth, wrapInt (totalDays - sumDays))
    else none

/-- Method `calcMonth(const int totalDays, const bool isLeap, int& month,
int& overDays)`; `month` and `overDays` are the values the two references hold
on entry, the result is what they hold on return.  The loop runs for
`currentMonth = 1, …, 12`, at most twelve times. -/
def calcMonth (totalDays : Int) (isLeap : Bool) (month overDays : Int) : Int × Int :=
  match calcMonthLoop totalDays isLeap 12 0 1 with
  | some r => r
  | none => (month, overDays)

/-- Method `date(int& year, int& month, int& day)`; `month` is the value the
caller's variable holds on entry, the result is `(year, month, day)`. -/
def date (fuel : Nat) (dt : DateTime) (month : Int) : Option (Int × Int × Int) :=
  let totalDays := wrapInt (dt.m_time.tdiv SEC_IN_DAY)
  match calcYear fuel totalDays with
  | none => none
  | some (year, overDays) =>
    let (month, overDays) := calcMonth overDays (isLeapYear year) month overDays
    some (year, month, wrapInt (overDays + 1))

end DateTime

/-! ## `struct DefStr` : string constants -/

namespace DefStr

/-- Constant `empty`. -/
def empty : LogString := "".toList
/-- Constant `space`. -/
def space : LogString := " ".toList
/-- Constant `colon`. -/
def colon : LogString := ":".toList
/-- Constant `under`. -/
def under : LogString := "_".toList
/-- Constant `zero`. -/
def zero : LogString := "0".toList
/-- Constant `openSqBracket`. -/
def openSqBracket : LogString := "[".toList
/-- Constant `closeSqBracket`. -/
def closeSqBracket : LogString := "]".toList
/-- Constant `lrArrow`. -/
def lrArrow : LogString := "=>".toList
/-- Constant `rlArrow`. -/
def rlArrow : LogString := "<=".toList
/-- Compound constant `levels`. -/
def levels : LogString := "TRACE DEBUG INFO  WARN  ERROR FATAL".toList
/-- Compound constant `months`. -/
def months : LogString := "Jan Feb Mar Apr May Jun Jul Aug Sep Oct Nov Dec".toList

/-- Method `Parser<TChar, Len>::parse(const TChar* s, const int n)`.  `pos` is an
`int`; the comparison with `all.length()` and `substr` take it as a `size_t`. -/
def Parser.parse (Len : Int) (s : LogString) (n : Int) : LogString :=
  let all := s
  let pos := wrapInt (n * wrapInt (Len + 1))
  if toSizeT pos < all.length then (all.drop (toSizeT pos)).take (toSizeT Len) else []

end DefStr

/-- Function `strLevel<TChar>(const Level id)`. -/
def strLevel (id : Level) : LogString :=
  let all := DefStr.levels
  DefStr.Parser.parse 5 all id.toInt

/-- Function `strMonth<TChar>(const int n)`. -/
def strMonth (n : Int) : LogString :=
  let all := DefStr.months
  DefStr.Parser.parse 3 all n

/-! ## Stream insertion of integers -/

/-- Characters `operator<<` inserts for a signed integer on a stream in decimal
base: a minus sign for a negative value, then the decimal digits. -/
def putDec (v : Int) : LogString :=
  if v < 0 then '-' :: Nat.toDigits 10 (-v).toNat else Nat.toDigits 10 v.toNat

/-- Characters `ss << std::setw(w) << std::setfill(fill) << v` inserts for an
`int` on a fresh stream: the decimal rendering, right-adjusted in `w` columns. -/
def putPadded (w : Nat) (fill : Char) (v : Int) : LogString :=
  List.leftpad w fill (putDec v)

namespace DateTime

/-- Method `monthNumToStr(const int m)`. -/
def monthNumToStr (m : Int) : LogString :=
  if m ≤ 0 ∨ m > 12 then [] else strMonth (wrapInt (m - 1))

/-- Method `strTime()`. -/
def strTime (dt : DateTime) : LogString :=
  let (h, m, s) := time dt
  let zero := DefStr.zero.getD 0 ' '
  let colon := DefStr.colon
  putPadded 2 zero h ++ colon ++ (putPadded 2 zero m ++ colon) ++ putPadded 2 zero s

/-- Method `strDate(const bool noSpace = false)`; `date` is entered with
`y = 0, m = 0, d = 0`. -/
def strDate (fuel : Nat) (dt : DateTime) (noSpace : Bool) : Option LogString :=
  match date fuel dt 0 with
  | none => none
  | some (y, m, d) =>
    let zero := DefStr.zero.getD 0 ' '
    let strSpace := if noSpace then DefStr.under else DefStr.space
    some (putDec y ++ strSpace ++ (monthNumToStr m ++ strSpace) ++ putPadded 2 zero d)

end DateTime

/-! ## Output stages : `class Out`, `class OutListRunner`, `class Logger` -/

/-- One call `m_sink.sink(level, msg)`: the sink called and what it receives. -/
structure SinkCall (σ : Type) where
  sink : σ
  level : Level
  msg : LogString
  deriving DecidableEq, Repr

/-- What a call `filter(const Level level, TStr& in, TStr& out)` leaves behind:
the returned flag and the content of the two reference arguments on return. -/
structure FilterResult where
  pass : Bool
  inMsg : LogString
  outMsg : LogString
  deriving DecidableEq, Repr

/-- Class `Out`: a filter and a sink.  `m_filter level inMsg outMsg` embeds
`m_filter.filter(level, in, out)`: from the content of `in` and `out` on entry
it gives the returned flag and the content of both on return, `in` being bound
by reference to the message that `send` then hands to the sink.  `m_sink`
names the sink object; its calls are recorded. -/
structure Out (σ : Type) where
  m_filter : Level → LogString → LogString → FilterResult
  m_sink : σ

/-- Method `Out::send(const Level level, LogString msg)`; the result lists the
calls of the sink, in order. -/
def Out.send {σ : Type} (o : Out σ) (level : Level) (msg : LogString) : List (SinkCall σ) :=
  let filteredMsg : LogString := []
  let r := o.m_filter level msg filteredMsg
  let msg := r.inMsg
  let filteredMsg := r.outMsg
  if r.pass then
    [⟨o.m_sink, level, msg⟩]
  else if !filteredMsg.isEmpty then
    [⟨o.m_sink, level, filteredMsg⟩]
  else
    []

/-- Method `OutListRunner<TStr, TList>::run(level, msg, list)`: the compile-time
`List<THead, TTail>` is a list of stages, `NullList` the empty one. -/
def OutListRunner.run {σ : Type} (level : Level) (msg : LogString) :
    List (Out σ) → List (SinkCall σ)
  | [] => []
  | head :: tail => head.send level msg ++ OutListRunner.run level msg tail

/-- Template `NumMarkedList<N, TItem>::T`: `TItem<N>`, `TItem<N-1>`, …,
`TItem<1>`, then `NullList`. -/
def NumMarkedList {σ : Type} (TItem : Nat → Out σ) : Nat → List (Out σ)
  | 0 => []
  | N + 1 => TItem (N + 1) :: NumMarkedList TItem N

/-- Enumeration `DeleteMethod`. -/
inductive DeleteMethod where
  | AT_EXIT | DELIBERATE_MEMORY_LEAK
  deriving DecidableEq, Repr

/-- The members of `struct Options` a logger is configured with. -/
structure Options where
  deleteMethod : DeleteMethod
  deltaUTC : Int
  noLock : Bool
  printTime : Bool
  printDate : Bool
  deriving DecidableEq, Repr

/-- The default `struct Options`. -/
def Options.default : Options :=
  { deleteMethod := .AT_EXIT, deltaUTC := 0, noLock := true, printTime := true,
    printDate := true }

/-- Class `Logger<TOptions, TOutList>`: the stage list `m_sinkList`. -/
structure Logger (σ : Type) where
  m_sinkList : List (Out σ)

/-- Method `Logger::log(const Level level, LogString msg)`; the mutex taken when
`noLock` is false does not change what a single caller's dispatch writes. -/
def Logger.log {σ : Type} (TOptions : Options) (self : Logger σ) (level : Level)
    (msg : LogString) : List (SinkCall σ) :=
  if TOptions.noLock then
    OutListRunner.run level msg self.m_sinkList
  else
    OutListRunner.run level msg self.m_sinkList

/-! ## Filters -/

/-- Method `NoneFilter::filter`: lets pass nothing, leaves `in` and `out` as
they are. -/
def NoneFilter.filter (_level : Level) (inMsg outMsg : LogString) : FilterResult :=
  { pass := false, inMsg := inMsg, outMsg := outMsg }

/-- Method `AnyFilter::filter`: lets pass anything, leaves `in` and `out` as they
are. -/
def AnyFilter.filter (_level : Level) (inMsg outMsg : LogString) : FilterResult :=
  { pass := true, inMsg := inMsg, outMsg := outMsg }

/-- Method `TraceFilter::filter` of `my_logger.h`, leaves `in` and `out` as they
are. -/
def TraceFilter.filter (level : Level) (inMsg outMsg : LogString) : FilterResult :=
  { pass := if level = Level.TRACE then false else true, inMsg := inMsg, outMsg := outMsg }

/-- Characters written by a list of sink calls when each call of a sink `s`
writes `w s level msg`. -/
def written {σ : Type} (w : σ → Level → LogString → LogString) (calls : List (SinkCall σ)) :
    LogString :=
  calls.flatMap (fun c => w c.sink c.level c.msg)

/-! ## `class MessageAccumulator` -/

/-- Enumeration `ControlValue`. -/
inductive ControlValue where
  | NL | DEC | OCT | HEX
  deriving DecidableEq, Repr

/-- The `basefield` of a stream: `std::dec`, `std::oct` or `std::hex`. -/
inductive Base where
  | dec | oct | hex
  deriving DecidableEq, Repr

/-- The state of the `std::basic_stringstream` `m_ss` that the appends read or
change: its text and the format flags `basefield`, `showbase`, `boolalpha`. -/
structure StrStream where
  str : LogString
  basefield : Base
  showbase : Bool
  boolalpha : Bool
  deriving DecidableEq, Repr

/-- A freshly constructed stream: empty, decimal, `showbase` and `boolalpha`
off. -/
def StrStream.fresh : StrStream :=
  { str := [], basefield := .dec, showbase := false, boolalpha := false }

/-- Characters `ss << v` inserts for an `int` `v`: decimal digits with sign in
base `dec`; in base `oct` or `hex` the digits of the value taken as a 32-bit
unsigned, with the prefix `0` or `0x` when `showbase` is set and the value is
not zero. -/
def StrStream.putInt (ss : StrStream) (v : Int) : LogString :=
  match ss.basefield with
  | .dec => putDec v
  | .oct =>
    let u := (v % 4294967296).toNat
    if ss.showbase ∧ u ≠ 0 then '0' :: Nat.toDigits 8 u else Nat.toDigits 8 u
  | .hex =>
    let u := (v % 4294967296).toNat
    if ss.showbase ∧ u ≠ 0 then '0' :: 'x' :: Nat.toDigits 16 u else Nat.toDigits 16 u

/-- Characters `ss << b` inserts for a `bool`: the words `true` and `false` with
`boolalpha`, otherwise the integer 1 or 0. -/
def StrStream.putBool (ss : StrStream) (b : Bool) : LogString :=
  if ss.boolalpha then (if b then "true".toList else "false".toList)
  else ss.putInt (if b then 1 else 0)

/-- The standard manipulators that act on the format flags the stream state
carries: `std::dec`, `std::oct`, `std::hex`, `std::showbase`, `std::noshowbase`,
`std::boolalpha`, `std::noboolalpha`. -/
inductive StdManip where
  | dec | oct | hex | showbase | noshowbase | boolalpha | noboolalpha
  deriving DecidableEq, Repr

/-- The values appended to a message: character strings (`const char*`,
`std::basic_string`), `int`, `bool`, `ControlValue`, and the standard
manipulators, which the generic `Appender` inserts like any other value. -/
inductive Value where
  | text (s : LogString)
  | int (v : Int)
  | bool (b : Bool)
  | control (c : ControlValue)
  | manip (m : StdManip)
  deriving DecidableEq, Repr

/-- Method `Appender<TStrStream, TValue>::append(ss, value)`, with its
specialization for `ControlValue`; the result is the stream afterwards.  The
generic `ss << value` applies a manipulator to the stream. -/
def Appender.append (ss : StrStream) : Value → StrStream
  | .text s => { ss with str := ss.str ++ s }
  | .int v => { ss with str := ss.str ++ ss.putInt v }
  | .bool b => { ss with str := ss.str ++ ss.putBool b }
  | .control value =>
    if value = ControlValue.NL then { ss with str := ss.str ++ ['\n'] }
    else if value = ControlValue.DEC then { ss with basefield := .dec }
    else if value = ControlValue.OCT then { ss with basefield := .oct }
    else if value = ControlValue.HEX then { ss with basefield := .hex }
    else ss
  | .manip .dec => { ss with basefield := .dec }
  | .manip .oct => { ss with basefield := .oct }
  | .manip .hex => { ss with basefield := .hex }
  | .manip .showbase => { ss with showbase := true }
  | .manip .noshowbase => { ss with showbase := false }
  | .manip .boolalpha => { ss with boolalpha := true }
  | .manip .noboolalpha => { ss with boolalpha := false }

/-- Class `MessageAccumulator`: the level and the stream. -/
structure MessageAccumulator where
  m_level : Level
  m_ss : StrStream
  deriving DecidableEq, Repr

namespace MessageAccumulator

/-- Constructor `MessageAccumulator(const Level level)`:
`m_ss << std::showbase << std::boolalpha`. -/
def new (level : Level) : MessageAccumulator :=
  { m_level := level, m_ss := { StrStream.fresh with showbase := true, boolalpha := true } }

/-- Method `additionMsg()`.  `clock` is what the system clock reads when
`DateTime dt(TOptions::deltaUTC)` is constructed; `none` when the year scan of
`strDate` runs out of fuel. -/
def additionMsg (TOptions : Options) (clock : Int) (fuel : Nat) (self : MessageAccumulator) :
    Option LogString :=
  let level := strLevel self.m_level
  let space := DefStr.space
  let openBr := DefStr.openSqBracket
  let closeBr := DefStr.closeSqBracket
  let dt := DateTime.new clock TOptions.deltaUTC 0
  let result := openBr ++ level ++ closeBr ++ space
  let afterDate : Option LogString :=
    if TOptions.printDate then
      match dt.strDate fuel false with
      | none => none
      | some d => some (result ++ (openBr ++ d ++ closeBr ++ space))
    else some result
  match afterDate with
  | none => none
  | some result =>
    if TOptions.printTime then
      some (result ++ (openBr ++ dt.strTime ++ closeBr ++ space))
    else some result

/-- Method `append(TValue value, bool isLast)`.  `logger` is the instance
`Logger<TOptions, TOutList>::instance()` gives; the result is the accumulator
afterwards and the sink calls made; `none` when `additionMsg` does not return. -/
def append {σ : Type} (TOptions : Options) (logger : Logger σ) (clock : Int) (fuel : Nat)
    (self : MessageAccumulator) (value : Value) (isLast : Bool) :
    Option (MessageAccumulator × List (SinkCall σ)) :=
  let self := { self with m_ss := Appender.append self.m_ss value }
  if isLast then
    match self.additionMsg TOptions clock fuel with
    | none => none
    | some addition => some (self, logger.log TOptions self.m_level (addition ++ self.m_ss.str))
  else
    some (self, [])

end MessageAccumulator

/-- The chain `ma << v₁ << v₂ << … << vₙ` of `operator<<`, each of which calls
`ma->append(value, false)` and hands `ma` on; the sink calls are collected. -/
def shiftAll {σ : Type} (TOptions : Options) (logger : Logger σ) (clock : Int) (fuel : Nat) :
    MessageAccumulator → List Value → Option (MessageAccumulator × List (SinkCall σ))
  | ma, [] => some (ma, [])
  | ma, value :: rest =>
    match ma.append TOptions logger clock fuel value false with
    | none => none
    | some (ma, calls) =>
      match shiftAll TOptions logger clock fuel ma rest with
      | none => none
      | some (ma, more) => some (ma, calls ++ more)

/-- Function `createLogEntry(const Level id)` and `LogEntry::trace()` …
`LogEntry::fatal()`: a new accumulator for the level. -/
def createLogEntry (id : Level) : MessageAccumulator :=
  MessageAccumulator.new id

/-! ## Sinks : `class CoutSink`, `class StdFileSink` -/

/-- Method `CoutSink::sink(level, msg)`, through `do_sink`: the characters put on
`std::cout` (`std::wcout` for wide strings), the message and `std::endl`. -/
def CoutSink.sink (_level : Level) (msg : LogString) : LogString :=
  msg ++ ['\n']

/-- The members of `struct OptionsForStdFileSink`. -/
structure OptionsForStdFileSink where
  filename : LogString
  clearIfExist : Bool
  deltaUTC : Int
  addDateTimeToFilename : Bool
  deriving DecidableEq, Repr

/-- The default `struct OptionsForStdFileSink`. -/
def OptionsForStdFileSink.default : OptionsForStdFileSink :=
  { filename := "./log".toList, clearIfExist := true, deltaUTC := 0,
    addDateTimeToFilename := true }

/-- The `std::ios_base::openmode` bits the file sink uses. -/
structure OpenMode where
  out : Bool
  trunc : Bool
  app : Bool
  deriving DecidableEq, Repr

/-- Class `StdFileSink`: what `m_ofs.open(filename, mode)` was called with. -/
structure StdFileSink where
  filename : LogString
  mode : OpenMode
  deriving DecidableEq, Repr

/-- Constructor `StdFileSink()`.  `clock` is what the system clock reads when
`DateTime<char> dt(TSinkOpt::deltaUTC)` is constructed; `none` when the year
scan of `strDate` runs out of fuel. -/
def StdFileSink.new (TSinkOpt : OptionsForStdFileSink) (clock : Int) (fuel : Nat) :
    Option StdFileSink :=
  let dt := DateTime.new clock TSinkOpt.deltaUTC 0
  let suffix : Option LogString :=
    if TSinkOpt.addDateTimeToFilename then
      match dt.strDate fuel true with
      | none => none
      | some d => some ("-".toList ++ d ++ "-".toList ++ dt.strTime)
    else some "".toList
  match suffix with
  | none => none
  | some suffix =>
    let filename := TSinkOpt.filename ++ suffix
    let mode : OpenMode :=
      { out := true, trunc := TSinkOpt.clearIfExist, app := !TSinkOpt.clearIfExist }
    some { filename := filename, mode := mode }

/-- Method `StdFileSink::sink(level, msg)`: the characters put on `m_ofs`, the
message and `std::endl`. -/
def StdFileSink.sink (_level : Level) (msg : LogString) : LogString :=
  msg ++ ['\n']

/-- The sinks of the loggers of `my_logger.h`: the console, or a file sink as
constructed. -/
inductive Sink where
  | CoutSink
  | StdFileSink (file : StdFileSink)
  deriving DecidableEq, Repr

/-! ## The loggers of `my_logger.h` -/

/-- `MinLogger::Options`, the default options. -/
def MinLogger.Options : Options := Options.default

/-- `MinLogger::Item<N>`; only `Item<1>` carries a stage. -/
def MinLogger.Item (_N : Nat) : Out Sink :=
  ⟨AnyFilter.filter, Sink.CoutSink⟩

/-- `MinLogger::OutList`, `NumMarkedList<1, Item>::T`. -/
def MinLogger.OutList : List (Out Sink) := NumMarkedList MinLogger.Item 1

/-- `CharLogger::Options`: the default options with `deltaUTC = 3`. -/
def CharLogger.Options : Options := { Options.default with deltaUTC := 3 }

/-- `CharLogger::FileSinkOptions`. -/
def CharLogger.FileSinkOptions : OptionsForStdFileSink :=
  { OptionsForStdFileSink.default with deltaUTC := 3, filename := "./myapp_log".toList }

/-- `CharLogger::Item<N>`: `Item<1>` is the console stage, `Item<2>` the file
stage; `file` is the file sink as constructed with the logger.  No other `N`
carries a stage, and the list of two uses no other. -/
def CharLogger.Item (file : StdFileSink) : Nat → Out Sink
  | 2 => ⟨AnyFilter.filter, Sink.StdFileSink file⟩
  | _ => ⟨AnyFilter.filter, Sink.CoutSink⟩

/-- `CharLogger::OutList`, `NumMarkedList<2, Item>::T`. -/
def CharLogger.OutList (file : StdFileSink) : List (Out Sink) :=
  NumMarkedList (CharLogger.Item file) 2

/-- `WCharLogger::Options`: wide characters, `deltaUTC = 3`. -/
def WCharLogger.Options : Options := { Options.default with deltaUTC := 3 }

/-- `WCharLogger::FileSinkOptions`. -/
def WCharLogger.FileSinkOptions : OptionsForStdFileSink :=
  { OptionsForStdFileSink.default with deltaUTC := 3, filename := "./myapp_wlog".toList }

/-- `WCharLogger::Item<N>`: `Item<1>` is the console stage behind `TraceFilter`,
`Item<2>` the file stage. -/
def WCharLogger.Item (file : StdFileSink) : Nat → Out Sink
  | 2 => ⟨AnyFilter.filter, Sink.StdFileSink file⟩
  | _ => ⟨TraceFilter.filter, Sink.CoutSink⟩

/-- `WCharLogger::OutList`, `NumMarkedList<2, Item>::T`. -/
def WCharLogger.OutList (file : StdFileSink) : List (Out Sink) :=
  NumMarkedList (WCharLogger.Item file) 2

/-! ## The singleton : `Logger::create`, `Logger::instance` -/

/-- The sink class of a stage type with its options: `CoutSink`, or
`StdFileSink` with `TSinkOpt`. -/
inductive SinkType where
  | CoutSink
  | StdFileSink (TSinkOpt : OptionsForStdFileSink)
  deriving DecidableEq, Repr

/-- Default constructor of the sink of a stage.  `CoutSink` declares none and
reads no clock; `StdFileSink()` is `StdFileSink.new`, `clock` being what the
system clock reads then; `none` when the year scan runs out of fuel. -/
def SinkType.new : SinkType → Int → Nat → Option Sink
  | .CoutSink, _, _ => some Sink.CoutSink
  | .StdFileSink TSinkOpt, clock, fuel =>
    match StdFileSink.new TSinkOpt clock fuel with
    | none => none
    | some file => some (Sink.StdFileSink file)

/-- Default constructor of `Out<TChar, TFilter, TFilterOpt, TSink, TSinkOpt>`,
the stage type being given as its filter and its sink class: it constructs
`m_filter`, which runs no code, and `m_sink`. -/
def Out.new (TData : Out SinkType) (clock : Int) (fuel : Nat) : Option (Out Sink) :=
  match TData.m_sink.new clock fuel with
  | none => none
  | some m_sink => some ⟨TData.m_filter, m_sink⟩

/-- Default constructor of the list type `List<THead, TTail>`, given as the list
of its stage types: `head` is constructed, then `tail`; `NullList` constructs
nothing.  `clock k` is what the system clock reads while stage `k` of the list
is constructed. -/
def OutList.new : List (Out SinkType) → (Nat → Int) → Nat → Option (List (Out Sink))
  | [], _, _ => some []
  | THead :: TTail, clock, fuel =>
    match Out.new THead (clock 0) fuel with
    | none => none
    | some head =>
      match OutList.new TTail (fun k => clock (k + 1)) fuel with
      | none => none
      | some tail => some (head :: tail)

/-- Function `Logger::create()`: `m_instance = new Logger<TOptions, TOutList>`,
whose constructor constructs the member `m_sinkList`; the result is the new
`m_instance`.  The deleter registered with `std::atexit` runs at exit only. -/
def Logger.create (TOutList : List (Out SinkType)) (clock : Nat → Int) (fuel : Nat) :
    Option (Logger Sink) :=
  match OutList.new TOutList clock fuel with
  | none => none
  | some m_sinkList => some ⟨m_sinkList⟩

/-- Function `Logger::instance()` for one caller.  `m_instance` is the static
pointer on entry, `none` for the null pointer it holds until `create` has run
under `std::call_once`; the result is the pointer returned, which is also the
static pointer from then on. -/
def Logger.instance (TOutList : List (Out SinkType)) (clock : Nat → Int) (fuel : Nat)
    (m_instance : Option (Logger Sink)) : Option (Logger Sink) :=
  match m_instance with
  | some logger => some logger
  | none => Logger.create TOutList clock fuel

/-- Method `MessageAccumulator::append(TValue value, bool isLast)` together with
the static state it reaches through `Logger<TOptions, TOutList>::instance()`.
`m_instance` is the static pointer on entry, `ctorClock k` what the system clock
reads while stage `k` of the chain is constructed, should `instance()` construct
it, and `clock` what it reads in `additionMsg`.  The result is the accumulator
afterwards, the sink calls made and the static pointer on return; `none` when
`instance()` or `additionMsg()` does not return. -/
def MessageAccumulator.appendStatic (TOptions : Options) (TOutList : List (Out SinkType))
    (ctorClock : Nat → Int) (clock : Int) (fuel : Nat) (m_instance : Option (Logger Sink))
    (self : MessageAccumulator) (value : Value) (isLast : Bool) :
    Option (MessageAccumulator × List (SinkCall Sink) × Option (Logger Sink)) :=
  let self := { self with m_ss := Appender.append self.m_ss value }
  if isLast then
    match Logger.instance TOutList ctorClock fuel m_instance with
    | none => none
    | some logger =>
      match self.additionMsg TOptions clock fuel with
      | none => none
      | some addition =>
        some (self, logger.log TOptions self.m_level (addition ++ self.m_ss.str), some logger)
  else
    some (self, [], m_instance)

/-- The chain `ma << v₁ << v₂ << … << vₙ` of `operator<<` with the static state
threaded through the calls of `append(value, false)`. -/
def shiftAllStatic (TOptions : Options) (TOutList : List (Out SinkType))
    (ctorClock : Nat → Int) (clock : Int) (fuel : Nat) :
    Option (Logger Sink) → MessageAccumulator → List Value →
      Option (MessageAccumulator × List (SinkCall Sink) × Option (Logger Sink))
  | m_instance, ma, [] => some (ma, [], m_instance)
  | m_instance, ma, value :: rest =>
    match ma.appendStatic TOptions TOutList ctorClock clock fuel m_instance value false with
    | none => none
    | some (ma, calls, m_instance) =>
      match shiftAllStatic TOptions TOutList ctorClock clock fuel m_instance ma rest with
      | none => none
      | some (ma, more, m_instance) => some (ma, calls ++ more, m_instance)

/-- The statement `ma << v₁ << … << vₙ <<= last` with the static state: the chain
of `operator<<` followed by `operator<<=`, which calls `ma->append(last, true)`. -/
def shiftAllThenLastStatic (TOptions : Options) (TOutList : List (Out SinkType))
    (ctorClock : Nat → Int) (clock : Int) (fuel : Nat) (m_instance : Option (Logger Sink))
    (ma : MessageAccumulator) (values : List Value) (last : Value) :
    Option (MessageAccumulator × List (SinkCall Sink) × Option (Logger Sink)) :=
  match shiftAllStatic TOptions TOutList ctorClock clock fuel m_instance ma values with
  | none => none
  | some (ma, calls, m_instance) =>
    match ma.appendStatic TOptions TOutList ctorClock clock fuel m_instance last true with
    | none => none
    | some (ma, more, m_instance) => some (ma, calls ++ more, m_instance)

/-- `MinLogger::Item<N>::TData` as a stage type; only `Item<1>` carries one. -/
def MinLogger.TData (_N : Nat) : Out SinkType :=
  ⟨AnyFilter.filter, SinkType.CoutSink⟩

/-- `MinLogger::OutList` as a list type, `NumMarkedList<1, Item>::T`. -/
def MinLogger.TOutList : List (Out SinkType) := NumMarkedList MinLogger.TData 1

/-- `CharLogger::Item<N>::TData` as a stage type: `Item<1>` the console stage,
`Item<2>` the file stage with `FileSinkOptions`. -/
def CharLogger.TData : Nat → Out SinkType
  | 2 => ⟨AnyFilter.filter, SinkType.StdFileSink CharLogger.FileSinkOptions⟩
  | _ => ⟨AnyFilter.filter, SinkType.CoutSink⟩

/-- `CharLogger::OutList` as a list type, `NumMarkedList<2, Item>::T`. -/
def CharLogger.TOutList : List (Out SinkType) := NumMarkedList CharLogger.TData 2

/-- `WCharLogger::Item<N>::TData` as a stage type: `Item<1>` the console stage
behind `TraceFilter`, `Item<2>` the file stage with `FileSinkOptions`. -/
def WCharLogger.TData : Nat → Out SinkType
  | 2 => ⟨AnyFilter.filter, SinkType.StdFileSink WCharLogger.FileSinkOptions⟩
  | _ => ⟨TraceFilter.filter, SinkType.CoutSink⟩

/-- `WCharLogger::OutList` as a list type, `NumMarkedList<2, Item>::T`. -/
def WCharLogger.TOutList : List (Out SinkType) := NumMarkedList WCharLogger.TData 2

/-! ## The Gregorian calendar, as the specification words it -/

/-- Gregorian leap-year rule: divisible by 4 and not by 100, or divisible by 400. -/
def gregorianLeap (year : Int) : Prop :=
  (4 ∣ year ∧ ¬ 100 ∣ year) ∨ 400 ∣ year

instance (year : Int) : Decidable (gregorianLeap year) := by
  unfold gregorianLeap; infer_instance

/-- Length of each month of a common year: the standard table
31, 28, 31, 30, 31, 30, 31, 31, 30, 31, 30, 31. -/
def gregorianMonthTable : Int → Int
  | 1 => 31 | 2 => 28 | 3 => 31 | 4 => 30 | 5 => 31 | 6 => 30
  | 7 => 31 | 8 => 31 | 9 => 30 | 10 => 31 | 11 => 30 | 12 => 31
  | _ => 0

/-- Sum of `f a, f (a + 1), …, f (a + n - 1)`. -/
def sumFrom (f : Int → Int) (a : Int) (n : Nat) : Int :=
  ((List.range n).map (fun k : Nat => f (a + k))).sum

/-- Length of a Gregorian year in days. -/
def gregorianYearLength (year : Int) : Int :=
  if gregorianLeap year then 366 else 365

/-- Length of a month of a Gregorian year in days. -/
def gregorianMonthLength (year month : Int) : Int :=
  gregorianMonthTable month + (if month = 2 ∧ gregorianLeap year then 1 else 0)

/-- Days from 1970-01-01 to `year`-`month`-`day` in the Gregorian calendar, for
a year from 1970 on: the days of every whole year since 1970, of every whole
month of `year` before `month`, and of `month` before `day`. -/
def gregorianDaysFromEpoch (year month day : Int) : Int :=
  sumFrom gregorianYearLength 1970 (year - 1970).toNat +
    sumFrom (gregorianMonthLength year) 1 (month - 1).toNat + (day - 1)

/-- The names of the six levels. -/
def levelName : Level → String
  | .TRACE => "TRACE"
  | .DEBUG => "DEBUG"
  | .INFO => "INFO"
  | .WARN => "WARN"
  | .ERROR => "ERROR"
  | .FATAL => "FATAL"

/-- A name right-padded with spaces to five characters. -/
def padRightFive (name : String) : LogString :=
  name.toList ++ List.replicate (5 - name.length) ' '

/-- Two decimal digits of a number below 100, the tens first. -/
def twoDigits (n : Int) : LogString :=
  [Nat.digitChar (n.toNat / 10), Nat.digitChar (n.toNat % 10)]

/-- The decimal numeral of a non-negative number. -/
def decimal (n : Int) : LogString :=
  (Nat.repr n.toNat).toList

/-- The 3-letter abbreviations of the twelve months. -/
def monthAbbrev : Int → String
  | 1 => "Jan" | 2 => "Feb" | 3 => "Mar" | 4 => "Apr" | 5 => "May" | 6 => "Jun"
  | 7 => "Jul" | 8 => "Aug" | 9 => "Sep" | 10 => "Oct" | 11 => "Nov" | 12 => "Dec"
  | _ => ""

/-- The base a token sets, if it is a base token. -/
def baseOfToken : Value → Option Base
  | .control .DEC => some .dec
  | .control .OCT => some .oct
  | .control .HEX => some .hex
  | _ => none

/-- The base set by the most recent base token of a sequence of appends,
decimal when there is none. -/
def mostRecentBase (values : List Value) : Base :=
  (values.reverse.findSome? baseOfToken).getD .dec

/-- An `int` rendered in a base with the base shown: signed decimal digits; or
the 32-bit unsigned value in octal after `0`, in hexadecimal after `0x`, a
zero being the single digit `0`. -/
def renderInBase : Base → Int → LogString
  | .dec, v => if v < 0 then '-' :: decimal (-v) else decimal v
  | .oct, v =>
    if v % 4294967296 = 0 then ['0'] else '0' :: Nat.toDigits 8 (v % 4294967296).toNat
  | .hex, v =>
    if v % 4294967296 = 0 then ['0']
    else '0' :: 'x' :: Nat.toDigits 16 (v % 4294967296).toNat

/-- A compound string: the components in order, one space between neighbours. -/
def compound : List LogString → LogString
  | [] => []
  | [c] => c
  | c :: d :: rest => c ++ ' ' :: compound (d :: rest)

/-- Whether an appended value is a standard stream manipulator. -/
def Value.isManip : Value → Bool
  | .manip _ => true
  | _ => false

/-- The format in force when a value is appended: the numeric base, whether the
base is shown, whether booleans are words. -/
structure Format where
  base : Base
  showbase : Bool
  boolalpha : Bool
  deriving DecidableEq, Repr

/-- The format of a fresh accumulator: decimal, base shown, booleans as words. -/
def Format.atConstruction : Format :=
  { base := .dec, showbase := true, boolalpha := true }

/-- The format of a stream. -/
def StrStream.format (ss : StrStream) : Format :=
  { base := ss.basefield, showbase := ss.showbase, boolalpha := ss.boolalpha }

/-- The format after a value is appended: a base token or base manipulator sets
the base, the other manipulators set their flag, anything else leaves the
format. -/
def Format.after (f : Format) : Value → Format
  | .control .DEC => { f with base := .dec }
  | .control .OCT => { f with base := .oct }
  | .control .HEX => { f with base := .hex }
  | .manip .dec => { f with base := .dec }
  | .manip .oct => { f with base := .oct }
  | .manip .hex => { f with base := .hex }
  | .manip .showbase => { f with showbase := true }
  | .manip .noshowbase => { f with showbase := false }
  | .manip .boolalpha => { f with boolalpha := true }
  | .manip .noboolalpha => { f with boolalpha := false }
  | _ => f

/-- An `int` rendered in a format: with the base shown as `renderInBase` has it,
otherwise the bare digits (signed in decimal, of the 32-bit unsigned value in
octal and hexadecimal). -/
def renderNumber (f : Format) (v : Int) : LogString :=
  if f.showbase then renderInBase f.base v
  else
    match f.base with
    | .dec => if v < 0 then '-' :: decimal (-v) else decimal v
    | .oct => Nat.toDigits 8 (v % 4294967296).toNat
    | .hex => Nat.toDigits 16 (v % 4294967296).toNat

/-- The characters one appended value adds to the message in a format: a string
itself, an integer in that format, a boolean as a word (as the number 1 or 0
when booleans are not words), NL as one line break, a base token or a
manipulator nothing. -/
def renderValue (f : Format) : Value → LogString
  | .text s => s
  | .int v => renderNumber f v
  | .bool x =>
    if f.boolalpha then (if x then "true".toList else "false".toList)
    else renderNumber f (if x then 1 else 0)
  | .control .NL => ['\n']
  | .control _ => []
  | .manip _ => []

/-- The renderings of a sequence of appended values, concatenated in order, each
in the format in force when it is appended, `f` being the format at the start. -/
def renderAll : Format → List Value → LogString
  | _, [] => []
  | f, v :: rest => renderValue f v ++ renderAll (f.after v) rest

/-- The range in which the constructor of a sink of this class returns: any
clock reading for the console sink and for a file sink that adds no date to
the file name; for a file sink that does, the clock reading plus
`deltaUTC * 3600` below `86400 * (2^31 - 366)` in absolute value, with fuel
above the day count. -/
def SinkType.inRange : SinkType → Int → Nat → Prop
  | .CoutSink, _, _ => True
  | .StdFileSink TSinkOpt, clock, fuel =>
    TSinkOpt.addDateTimeToFilename = true →
      -2147483648 ≤ TSinkOpt.deltaUTC ∧ TSinkOpt.deltaUTC < 2147483648 ∧
      -(86400 * 2147483282) < clock + TSinkOpt.deltaUTC * 3600 ∧
      clock + TSinkOpt.deltaUTC * 3600 < 86400 * 2147483282 ∧
      0 < fuel ∧ (clock + TSinkOpt.deltaUTC * 3600) / 86400 < fuel

/-- Every sink of the chain is in range at the clock reading of its own
construction, `clock k` for stage `k`. -/
def chainInRange : List (Out SinkType) → (Nat → Int) → Nat → Prop
  | [], _, _ => True
  | THead :: TTail, clock, fuel =>
    THead.m_sink.inRange (clock 0) fuel ∧ chainInRange TTail (fun k => clock (k + 1)) fuel

instance SinkType.decidableInRange (TSink : SinkType) (clock : Int) (fuel : Nat) :
    Decidable (TSink.inRange clock fuel) := by
  cases TSink <;> unfold SinkType.inRange <;> infer_instance

instance decidableChainInRange (TOutList : List (Out SinkType)) :
    ∀ (clock : Nat → Int) (fuel : Nat), Decidable (chainInRange TOutList clock fuel) := by
  induction TOutList with
  | nil => intro clock fuel; unfold chainInRange; infer_instance
  | cons THead TTail ih =>
    intro clock fuel
    unfold chainInRange
    exact @instDecidableAnd _ _ _ (ih _ _)

end Logger

namespace Logger

open DateTime

/-! ## Integer helpers -/

theorem wrapInt_eq {x : Int} (h0 : -2147483648 ≤ x) (h1 : x < 2147483648) : wrapInt x = x := by
  unfold wrapInt; omega

theorem wrapTime_eq {x : Int} (h0 : -9223372036854775808 ≤ x) (h1 : x < 9223372036854775808) :
    wrapTime x = x := by
  unfold wrapTime; omega

theorem tmod_of_nonneg {a b : Int} (ha : 0 ≤ a) (hb : 0 ≤ b) : a.tmod b = a % b :=
  Int.tmod_eq_emod ha hb

theorem tdiv_of_nonneg {a b : Int} (ha : 0 ≤ a) (hb : 0 ≤ b) : a.tdiv b = a / b :=
  Int.tdiv_eq_ediv ha hb

theorem tmod_eq_zero_iff (a b : Int) : a.tmod b = 0 ↔ b ∣ a :=
  ⟨Int.dvd_of_tmod_eq_zero, Int.tmod_eq_zero_of_dvd⟩

theorem tdiv_of_nonpos {a b : Int} (ha : a ≤ 0) (hb : 0 ≤ b) : a.tdiv b = -((-a) / b) := by
  have h := Int.neg_tdiv (-a) b
  rw [neg_neg] at h
  rw [h, Int.tdiv_eq_ediv (by omega) hb]

theorem tmod_of_nonpos {a b : Int} (ha : a ≤ 0) (hb : 0 ≤ b) : a.tmod b = -((-a) % b) := by
  rw [Int.tmod_def, tdiv_of_nonpos ha hb, Int.emod_def]
  ring

theorem sumFrom_zero (f : Int → Int) (a : Int) : sumFrom f a 0 = 0 := by
  simp [sumFrom]

theorem sumFrom_succ_left (f : Int → Int) (a : Int) (n : Nat) :
    sumFrom f a (n + 1) = f a + sumFrom f (a + 1) n := by
  unfold sumFrom
  rw [List.range_succ_eq_map, List.map_cons, List.sum_cons, List.map_map]
  have hfun : ((fun k : Nat => f (a + k)) ∘ Nat.succ) = (fun k : Nat => f (a + 1 + k)) := by
    funext k
    simp only [Function.comp, Nat.succ_eq_add_one, Nat.cast_add, Nat.cast_one]
    congr 1
    ring
  rw [hfun]
  simp

theorem sumFrom_congr (f g : Int → Int) (a : Int) (n : Nat)
    (h : ∀ x, a ≤ x → x < a + n → f x = g x) : sumFrom f a n = sumFrom g a n := by
  induction n generalizing a with
  | zero => simp [sumFrom_zero]
  | succ n ih =>
    rw [sumFrom_succ_left, sumFrom_succ_left, h a (le_refl a) (by push_cast; omega)]
    rw [ih (a + 1) (fun x h0 h1 => h x (by omega) (by push_cast; omega))]

/-! ## C2 : the leap-year rule -/

theorem isLeapYear_iff (year : Int) : isLeapYear year = true ↔ gregorianLeap year := by
  unfold isLeapYear gregorianLeap
  simp only [tmod_eq_zero_iff, ne_eq]
  split <;> simp_all

/-- C2: for every integer year, `isLeapYear year` is true exactly when the year
is divisible by 4 and not by 100, or divisible by 400; it is true for 2000, 2004
and 2400 and false for 1900, 2100 and 2001. -/
theorem isLeapYear_gregorian :
    (∀ year : Int, isLeapYear year = true ↔ gregorianLeap year) ∧
    isLeapYear 2000 = true ∧ isLeapYear 2004 = true ∧ isLeapYear 2400 = true ∧
    isLeapYear 1900 = false ∧ isLeapYear 2100 = false ∧ isLeapYear 2001 = false := by
  exact ⟨isLeapYear_iff, by decide, by decide, by decide, by decide, by decide, by decide⟩

/-! ## C3 : the month-length table -/

/-- C3: for a month in 1..12, `daysInMonth month isLeap` is the entry of the
table 31, 28, 31, 30, 31, 30, 31, 31, 30, 31, 30, 31 for that month, plus one
exactly when the month is 2 and `isLeap` holds; for a month outside 1..12 it is
0; February has 29 days in a leap year and 28 otherwise. -/
theorem daysInMonth_table :
    (∀ (month : Int) (isLeap : Bool), daysInMonth month isLeap =
      if 1 ≤ month ∧ month ≤ 12 then
        gregorianMonthTable month + (if month = 2 ∧ isLeap = true then 1 else 0)
      else 0) ∧
    daysInMonth 2 true = 29 ∧ daysInMonth 2 false = 28 := by
  refine ⟨?_, by decide, by decide⟩
  intro month isLeap
  by_cases h : 1 ≤ month ∧ month ≤ 12
  · obtain ⟨h1, h2⟩ := h
    have hm : month = 1 ∨ month = 2 ∨ month = 3 ∨ month = 4 ∨ month = 5 ∨ month = 6 ∨
        month = 7 ∨ month = 8 ∨ month = 9 ∨ month = 10 ∨ month = 11 ∨ month = 12 := by omega
    rcases hm with h | h | h | h | h | h | h | h | h | h | h | h <;> subst h <;>
      cases isLeap <;> decide
  · have h' : month ≤ 0 ∨ month > 12 := by omega
    simp [daysInMonth, h, h']

/-! ## The calendar scan -/

theorem daysInYear_eq (year : Int) : daysInYear year = gregorianYearLength year := by
  unfold daysInYear gregorianYearLength
  by_cases h : gregorianLeap year
  · rw [if_pos h, if_pos ((isLeapYear_iff year).2 h)]
  · rw [if_neg h, if_neg (fun hl => h ((isLeapYear_iff year).1 hl))]

theorem daysInYear_cases (year : Int) : daysInYear year = 365 ∨ daysInYear year = 366 := by
  unfold daysInYear
  split
  · exact Or.inr rfl
  · exact Or.inl rfl

/-- The scan of `calcYear` from the state `(sumDays, currentYear)`: with enough
fuel and no 32-bit overflow in reach it stops in a year `currentYear + n` with
the days of the `n` years it skipped subtracted. -/
theorem calcYearLoop_spec (totalDays : Int) (hT : totalDays ≤ 2147483281) :
    ∀ (fuel : Nat) (sumDays currentYear : Int),
      0 ≤ sumDays → sumDays ≤ totalDays → 1970 ≤ currentYear →
      365 * (currentYear - 1970) ≤ sumDays → totalDays - sumDays < fuel →
      ∃ (n : Nat) (overDays : Int),
        calcYearLoop totalDays fuel sumDays currentYear = some (currentYear + n, overDays) ∧
        0 ≤ overDays ∧ overDays < daysInYear (currentYear + n) ∧
        sumDays + sumFrom daysInYear currentYear n + overDays = totalDays := by
  intro fuel
  induction fuel with
  | zero =>
    intro sumDays currentYear _ h1 _ _ hf
    simp at hf
    omega
  | succ fuel ih =>
    intro sumDays currentYear h0 h1 hy hs hf
    push_cast at hf
    have hd := daysInYear_cases currentYear
    have hw : wrapInt (sumDays + daysInYear currentYear) = sumDays + daysInYear currentYear :=
      wrapInt_eq (by omega) (by omega)
    simp only [calcYearLoop, hw]
    by_cases hc : sumDays + daysInYear currentYear ≤ totalDays
    · rw [if_pos hc]
      have hw2 : wrapInt (currentYear + 1) = currentYear + 1 :=
        wrapInt_eq (by omega) (by omega)
      rw [hw2]
      obtain ⟨n, overDays, hres, ho0, ho1, hsum⟩ :=
        ih (sumDays + daysInYear currentYear) (currentYear + 1) (by omega) hc (by omega)
          (by omega) (by omega)
      refine ⟨n + 1, overDays, ?_, ho0, ?_, ?_⟩
      · rw [hres]
        push_cast
        congr 2
        ring
      · have he : currentYear + ((n + 1 : Nat) : Int) = currentYear + 1 + n := by
          push_cast
          ring
        rw [he]
        exact ho1
      · rw [sumFrom_succ_left]
        omega
    · rw [if_neg hc]
      refine ⟨0, totalDays - sumDays, ?_, by omega, ?_, ?_⟩
      · rw [wrapInt_eq (by omega) (by omega)]
        simp
      · simp only [Nat.cast_zero, add_zero]
        omega
      · rw [sumFrom_zero]
        omega

theorem daysInMonth_eq (year month : Int) (h1 : 1 ≤ month) (h2 : month ≤ 12) :
    daysInMonth month (isLeapYear year) = gregorianMonthLength year month := by
  have hm : month = 1 ∨ month = 2 ∨ month = 3 ∨ month = 4 ∨ month = 5 ∨ month = 6 ∨
      month = 7 ∨ month = 8 ∨ month = 9 ∨ month = 10 ∨ month = 11 ∨ month = 12 := by omega
  unfold gregorianMonthLength
  by_cases hl : gregorianLeap year
  · have hb : isLeapYear year = true := (isLeapYear_iff year).2 hl
    rw [hb]
    rcases hm with h | h | h | h | h | h | h | h | h | h | h | h <;> subst h <;>
      simp [hl] <;> decide
  · have hb : isLeapYear year = false := by
      cases hq : isLeapYear year
      · rfl
      · exact absurd ((isLeapYear_iff year).1 hq) hl
    rw [hb]
    rcases hm with h | h | h | h | h | h | h | h | h | h | h | h <;> subst h <;>
      simp [hl] <;> decide

theorem daysInMonth_bounds (month : Int) (isLeap : Bool) (h1 : 1 ≤ month) (h2 : month ≤ 12) :
    28 ≤ daysInMonth month isLeap ∧ daysInMonth month isLeap ≤ 31 := by
  have hm : month = 1 ∨ month = 2 ∨ month = 3 ∨ month = 4 ∨ month = 5 ∨ month = 6 ∨
      month = 7 ∨ month = 8 ∨ month = 9 ∨ month = 10 ∨ month = 11 ∨ month = 12 := by omega
  rcases hm with h | h | h | h | h | h | h | h | h | h | h | h <;> subst h <;>
    cases isLeap <;> decide

/-- The loop of `calcMonth` from the state `(sumDays, currentMonth)` with
`13 - currentMonth` iterations left: it either assigns a month with the days of
the months it skipped subtracted, or ends with every remaining month skipped. -/
theorem calcMonthLoop_spec (totalDays : Int) (isLeap : Bool) (hT : totalDays ≤ 2147483000) :
    ∀ (n : Nat) (sumDays currentMonth : Int),
      0 ≤ sumDays → sumDays ≤ totalDays → 1 ≤ currentMonth → currentMonth + n = 13 →
      (∃ (k : Nat) (overDays : Int),
        calcMonthLoop totalDays isLeap n sumDays currentMonth =
          some (currentMonth + k, overDays) ∧
        currentMonth + k ≤ 12 ∧ 0 ≤ overDays ∧
        overDays < daysInMonth (currentMonth + k) isLeap ∧
        sumDays + sumFrom (fun j => daysInMonth j isLeap) currentMonth k + overDays
          = totalDays) ∨
      (calcMonthLoop totalDays isLeap n sumDays currentMonth = none ∧
        sumDays + sumFrom (fun j => daysInMonth j isLeap) currentMonth n ≤ totalDays) := by
  intro n
  induction n with
  | zero =>
    intro sumDays currentMonth _ h1 _ _
    right
    simp [calcMonthLoop, sumFrom_zero, h1]
  | succ n ih =>
    intro sumDays currentMonth h0 h1 hm hn
    push_cast at hn
    have hm12 : currentMonth ≤ 12 := by omega
    have hd := daysInMonth_bounds currentMonth isLeap hm hm12
    have hw : wrapInt (sumDays + daysInMonth currentMonth isLeap)
        = sumDays + daysInMonth currentMonth isLeap := wrapInt_eq (by omega) (by omega)
    simp only [calcMonthLoop, if_pos hm12, hw]
    by_cases hc : sumDays + daysInMonth currentMonth isLeap ≤ totalDays
    · rw [if_pos hc, wrapInt_eq (x := currentMonth + 1) (by omega) (by omega)]
      rcases ih (sumDays + daysInMonth currentMonth isLeap) (currentMonth + 1) (by omega) hc
          (by omega) (by omega) with ⟨k, overDays, hres, hk, ho0, ho1, hsum⟩ | ⟨hres, hsum⟩
      · left
        have he : currentMonth + ((k + 1 : Nat) : Int) = currentMonth + 1 + k := by
          push_cast
          ring
        refine ⟨k + 1, overDays, ?_, ?_, ho0, ?_, ?_⟩
        · rw [hres, he]
        · rw [he]
          exact hk
        · rw [he]
          exact ho1
        · rw [sumFrom_succ_left]
          omega
      · right
        refine ⟨hres, ?_⟩
        rw [sumFrom_succ_left]
        omega
    · rw [if_neg hc]
      left
      refine ⟨0, totalDays - sumDays, ?_, ?_, by omega, ?_, ?_⟩
      · rw [wrapInt_eq (by omega) (by omega)]
        simp
      · simpa using hm12
      · simp only [Nat.cast_zero, add_zero]
        omega
      · rw [sumFrom_zero]
        omega

theorem sumFrom_daysInMonth_year (isLeap : Bool) :
    sumFrom (fun j => daysInMonth j isLeap) 1 12 = if isLeap then 366 else 365 := by
  cases isLeap <;> decide

theorem calcMonth_spec (overDays : Int) (isLeap : Bool) (h0 : 0 ≤ overDays)
    (h1 : overDays < if isLeap then 366 else 365) (month0 overDays0 : Int) :
    ∃ (k : Nat) (rest : Int),
      calcMonth overDays isLeap month0 overDays0 = ((1 : Int) + k, rest) ∧ (1 : Int) + k ≤ 12 ∧
      0 ≤ rest ∧ rest < daysInMonth (1 + k) isLeap ∧
      sumFrom (fun j => daysInMonth j isLeap) 1 k + rest = overDays := by
  have hT : overDays ≤ 2147483000 := by
    split at h1 <;> omega
  rcases calcMonthLoop_spec overDays isLeap hT 12 0 1 (le_refl 0) h0 (le_refl 1) (by norm_num)
    with ⟨k, rest, hres, hk, hr0, hr1, hsum⟩ | ⟨_, hsum⟩
  · refine ⟨k, rest, ?_, hk, hr0, hr1, by omega⟩
    simp only [calcMonth, hres]
  · rw [sumFrom_daysInMonth_year] at hsum
    omega

theorem new_m_time (clock off t : Int) (hoff0 : -2147483648 ≤ off) (hoff1 : off < 2147483648)
    (h0 : -9223372036854775808 ≤ (if t = 0 then clock else t) + off * 3600)
    (h1 : (if t = 0 then clock else t) + off * 3600 < 9223372036854775808) :
    DateTime.new clock off t = ⟨(if t = 0 then clock else t) + off * 3600⟩ := by
  have hc : off * SEC_IN_HOUR = off * 3600 := by
    unfold SEC_IN_HOUR
    norm_num
  simp only [DateTime.new, hc]
  rw [wrapTime_eq (x := off * 3600) (by omega) (by omega), wrapTime_eq h0 h1]

theorem totalDays_of_nonneg (s : Int) (h0 : 0 ≤ s) (h1 : s < 86400 * 2147483282) :
    wrapInt ((DateTime.mk s).m_time.tdiv SEC_IN_DAY) = s / 86400 := by
  have e1 : SEC_IN_DAY = 86400 := by unfold SEC_IN_DAY; norm_num
  rw [e1]
  show wrapInt (s.tdiv 86400) = s / 86400
  rw [tdiv_of_nonneg h0 (by norm_num)]
  exact wrapInt_eq (by omega) (by omega)

/-- Method `time` on a non-negative stored time. -/
theorem time_of_nonneg (s : Int) (h0 : 0 ≤ s) :
    time ⟨s⟩ = (s % 86400 / 3600, s % 86400 % 3600 / 60, s % 86400 % 3600 % 60) := by
  have e1 : SEC_IN_DAY = 86400 := by unfold SEC_IN_DAY; norm_num
  have e2 : SEC_IN_HOUR = 3600 := by unfold SEC_IN_HOUR; norm_num
  have e3 : SEC_IN_MINUTE = 60 := by unfold SEC_IN_MINUTE; norm_num
  have a1 : s.tmod 86400 = s % 86400 := tmod_of_nonneg h0 (by norm_num)
  have a2 : wrapInt (s % 86400) = s % 86400 := wrapInt_eq (by omega) (by omega)
  have a3 : (s % 86400).tmod 3600 = s % 86400 % 3600 := tmod_of_nonneg (by omega) (by norm_num)
  have a4 : wrapInt (s % 86400 % 3600) = s % 86400 % 3600 := wrapInt_eq (by omega) (by omega)
  have a5 : (s % 86400).tdiv 3600 = s % 86400 / 3600 := tdiv_of_nonneg (by omega) (by norm_num)
  have a6 : wrapInt (s % 86400 / 3600) = s % 86400 / 3600 := wrapInt_eq (by omega) (by omega)
  have a7 : (s % 86400 % 3600).tdiv 60 = s % 86400 % 3600 / 60 :=
    tdiv_of_nonneg (by omega) (by norm_num)
  have a8 : wrapInt (s % 86400 % 3600 / 60) = s % 86400 % 3600 / 60 :=
    wrapInt_eq (by omega) (by omega)
  have a9 : (s % 86400 % 3600).tmod 60 = s % 86400 % 3600 % 60 :=
    tmod_of_nonneg (by omega) (by norm_num)
  have a10 : wrapInt (s % 86400 % 3600 % 60) = s % 86400 % 3600 % 60 :=
    wrapInt_eq (by omega) (by omega)
  simp only [time, e1, e2, e3, a1, a2, a3, a4, a5, a6, a7, a8, a9, a10]

/-- Method `date` once the day count `totalDays` is known to be non-negative and
clear of the 32-bit limit: with enough fuel it returns a valid calendar date
whose distance from 1970-01-01 is `totalDays`. -/
theorem date_of_totalDays (dt : DateTime) (T : Int)
    (hT : wrapInt (dt.m_time.tdiv SEC_IN_DAY) = T) (h0 : 0 ≤ T) (h1 : T ≤ 2147483281)
    (fuel : Nat) (hf : T < fuel) (month0 : Int) :
    ∃ year month day, date fuel dt month0 = some (year, month, day) ∧
      1970 ≤ year ∧ 1 ≤ month ∧ month ≤ 12 ∧ 1 ≤ day ∧
      day ≤ daysInMonth month (isLeapYear year) ∧
      gregorianDaysFromEpoch year month day = T := by
  obtain ⟨n, overDays, hres, ho0, ho1, hsum⟩ :=
    calcYearLoop_spec T h1 fuel 0 1970 (le_refl 0) h0 (le_refl 1970) (by norm_num) (by omega)
  have ho1b : overDays < if isLeapYear (1970 + n) then 366 else 365 := by
    unfold daysInYear at ho1
    exact ho1
  obtain ⟨k, rest, hm, hk, hr0, hr1, hsum2⟩ :=
    calcMonth_spec overDays (isLeapYear (1970 + n)) ho0 ho1b month0 overDays
  have hb := daysInMonth_bounds (1 + k) (isLeapYear (1970 + n)) (by omega) hk
  have hw : wrapInt (rest + 1) = rest + 1 := wrapInt_eq (by omega) (by omega)
  refine ⟨1970 + n, 1 + k, rest + 1, ?_, by omega, by omega, hk, by omega, by omega, ?_⟩
  · simp only [date, hT, calcYear, BASE_YEAR, hres, hm, hw]
  · unfold gregorianDaysFromEpoch
    have e1 : ((1970 : Int) + n - 1970).toNat = n := by omega
    have e2 : ((1 : Int) + k - 1).toNat = k := by omega
    rw [e1, e2]
    rw [← sumFrom_congr daysInYear gregorianYearLength 1970 n (fun x _ _ => daysInYear_eq x)]
    rw [← sumFrom_congr (fun j => daysInMonth j (isLeapYear (1970 + n)))
      (gregorianMonthLength (1970 + n)) 1 k
      (fun x hx0 hx1 => daysInMonth_eq (1970 + n) x hx0 (by omega))]
    omega

/-! ## C1 : decomposed fields re-encode to the epoch seconds -/

/-- C1 (amended): with offset 0, let `s` be `epochSeconds` itself when it is
positive and the reading of the system clock when it is 0 (the constructor
takes `t = 0` as a request for the current time).  Whenever
`0 ≤ s < 86400 * (2^31 - 366)`, so that the day count fits the 32-bit scan,
`date` returns, given enough fuel, a valid calendar date from 1970 on, `time` a
valid time of day, and the six fields re-encode to exactly `s`: 86400 times the
Gregorian day distance from 1970-01-01, plus `3600 * hour + 60 * minute +
second`. -/
theorem date_time_reencode (clock t : Int) (fuel : Nat) (month0 : Int)
    (h0 : 0 ≤ (if t = 0 then clock else t))
    (h1 : (if t = 0 then clock else t) < 86400 * 2147483282)
    (hf : (if t = 0 then clock else t) / 86400 < fuel) :
    ∃ year month day hour minute second,
      date fuel (DateTime.new clock 0 t) month0 = some (year, month, day) ∧
      time (DateTime.new clock 0 t) = (hour, minute, second) ∧
      1970 ≤ year ∧ 1 ≤ month ∧ month ≤ 12 ∧
      1 ≤ day ∧ day ≤ gregorianMonthLength year month ∧
      0 ≤ hour ∧ hour ≤ 23 ∧ 0 ≤ minute ∧ minute ≤ 59 ∧ 0 ≤ second ∧ second ≤ 59 ∧
      86400 * gregorianDaysFromEpoch year month day + 3600 * hour + 60 * minute + second
        = (if t = 0 then clock else t) := by
  have hnew := new_m_time clock 0 t (by norm_num) (by norm_num) (by omega) (by omega)
  rw [hnew]
  generalize (if t = 0 then clock else t) = s at *
  simp only [zero_mul, add_zero]
  obtain ⟨year, month, day, hd, hy, hm1, hm12, hd1, hd2, hg⟩ :=
    date_of_totalDays ⟨s⟩ (s / 86400) (totalDays_of_nonneg s h0 h1) (by omega) (by omega)
      fuel hf month0
  rw [daysInMonth_eq year month hm1 hm12] at hd2
  refine ⟨year, month, day, _, _, _, hd, time_of_nonneg s h0, hy, hm1, hm12, hd1, hd2,
    ?_, ?_, ?_, ?_, ?_, ?_, ?_⟩
  all_goals omega

/-- Witness of `date_time_reencode` at 2001-09-09 01:46:40 UTC. -/
theorem date_time_reencode_witness :
    ∃ year month day hour minute second,
      date 12000 (DateTime.new 0 0 1000000000) 0 = some (year, month, day) ∧
      time (DateTime.new 0 0 1000000000) = (hour, minute, second) ∧
      1970 ≤ year ∧ 1 ≤ month ∧ month ≤ 12 ∧
      1 ≤ day ∧ day ≤ gregorianMonthLength year month ∧
      0 ≤ hour ∧ hour ≤ 23 ∧ 0 ≤ minute ∧ minute ≤ 59 ∧ 0 ≤ second ∧ second ≤ 59 ∧
      86400 * gregorianDaysFromEpoch year month day + 3600 * hour + 60 * minute + second
        = (if (1000000000 : Int) = 0 then 0 else 1000000000) :=
  date_time_reencode 0 1000000000 12000 0 (by decide) (by decide) (by decide)

/-- C1 fails as stated at `epochSeconds = 0`, where the constructor stores the
clock reading (here 1000000000) and the fields re-encode to that reading, not
to 0, and at `epochSeconds = 86400 * 2^31`, where the day count leaves the
32-bit `int` and the day of the month comes out negative. -/
theorem date_time_reencode_counterexample :
    (date 64 (DateTime.new 1000000000 0 0) 0 = some (2001, 9, 9) ∧
      time (DateTime.new 1000000000 0 0) = (1, 46, 40) ∧
      86400 * gregorianDaysFromEpoch 2001 9 9 + 3600 * 1 + 60 * 46 + 40 = 1000000000 ∧
      86400 * gregorianDaysFromEpoch 2001 9 9 + 3600 * 1 + 60 * 46 + 40 ≠ 0) ∧
    (date 64 (DateTime.new 0 0 185542587187200) 0 = some (1970, 1, -2147483647) ∧
      time (DateTime.new 0 0 185542587187200) = (0, 0, 0) ∧
      86400 * gregorianDaysFromEpoch 1970 1 (-2147483647) + 3600 * 0 + 60 * 0 + 0
        ≠ 185542587187200) := by
  refine ⟨⟨by decide, by decide, by decide, by decide⟩, ⟨by decide, by decide, by decide⟩⟩

/-! ## C4 : time of day -/

/-- C4 (amended): let `s` be `epochSeconds` when it is positive and the clock
reading when it is 0, plus `utcOffsetHours * 3600`.  For every 32-bit
`utcOffsetHours`, whenever `0 ≤ s < 2^63`, `time` returns `(hour, minute,
second)` with `0 ≤ hour ≤ 23`, `0 ≤ minute ≤ 59`, `0 ≤ second ≤ 59` and
`3600 * hour + 60 * minute + second = s mod 86400`. -/
theorem time_of_day (clock utcOffsetHours t : Int)
    (hoff0 : -2147483648 ≤ utcOffsetHours) (hoff1 : utcOffsetHours < 2147483648)
    (h0 : 0 ≤ (if t = 0 then clock else t) + utcOffsetHours * 3600)
    (h1 : (if t = 0 then clock else t) + utcOffsetHours * 3600 < 9223372036854775808) :
    ∃ hour minute second,
      time (DateTime.new clock utcOffsetHours t) = (hour, minute, second) ∧
      0 ≤ hour ∧ hour ≤ 23 ∧ 0 ≤ minute ∧ minute ≤ 59 ∧ 0 ≤ second ∧ second ≤ 59 ∧
      3600 * hour + 60 * minute + second
        = ((if t = 0 then clock else t) + utcOffsetHours * 3600) % 86400 := by
  rw [new_m_time clock utcOffsetHours t hoff0 hoff1 (by omega) h1]
  generalize (if t = 0 then clock else t) + utcOffsetHours * 3600 = s at *
  refine ⟨_, _, _, time_of_nonneg s h0, ?_, ?_, ?_, ?_, ?_, ?_, ?_⟩ <;> omega

/-- Witness of `time_of_day` at 2001-09-09 01:46:40 UTC, three hours east. -/
theorem time_of_day_witness :
    ∃ hour minute second,
      time (DateTime.new 0 3 1000000000) = (hour, minute, second) ∧
      0 ≤ hour ∧ hour ≤ 23 ∧ 0 ≤ minute ∧ minute ≤ 59 ∧ 0 ≤ second ∧ second ≤ 59 ∧
      3600 * hour + 60 * minute + second
        = ((if (1000000000 : Int) = 0 then 0 else 1000000000) + 3 * 3600) % 86400 :=
  time_of_day 0 3 1000000000 (by decide) (by decide) (by decide) (by decide)

/-- C4 fails as stated at `epochSeconds = 0`, where the time of day is that of
the clock reading (6400 seconds into the day for the reading 1000000000, not
0), and at `epochSeconds = 1` with `utcOffsetHours = -1`, where the stored time
is negative and minute and second come out as -59. -/
theorem time_of_day_counterexample :
    (time (DateTime.new 1000000000 0 0) = (1, 46, 40) ∧
      (3600 * 1 + 60 * 46 + 40 : Int) ≠ (0 + 0 * 3600) % 86400) ∧
    (time (DateTime.new 1000000000 (-1) 1) = (0, -59, -59) ∧
      (3600 * 0 + 60 * (-59) + (-59) : Int) ≠ (1 + (-1) * 3600) % 86400) := by
  refine ⟨⟨by decide, by decide⟩, ⟨by decide, by decide⟩⟩

/-! ## C5 : the range of the date fields -/

/-- C6: for each of the six levels `strLevel` returns a string of exactly 5
characters, the level's name right-padded with spaces: "TRACE", "DEBUG",
"INFO ", "WARN ", "ERROR", "FATAL". -/
theorem strLevel_fixed_width :
    (∀ id : Level, (strLevel id).length = 5 ∧ strLevel id = padRightFive (levelName id)) ∧
    strLevel Level.TRACE = "TRACE".toList ∧ strLevel Level.DEBUG = "DEBUG".toList ∧
    strLevel Level.INFO = "INFO ".toList ∧ strLevel Level.WARN = "WARN ".toList ∧
    strLevel Level.ERROR = "ERROR".toList ∧ strLevel Level.FATAL = "FATAL".toList := by
  refine ⟨?_, by decide, by decide, by decide, by decide, by decide, by decide⟩
  intro id
  cases id <;> exact ⟨by decide, by decide⟩

/-! ## C7 : one stage -/

/-- C7 (amended): `Out::send` calls the sink at most once: when the filter
returns true, with the message as the filter leaves it in its `in` argument,
whatever it left in the substitute, which is the original message verbatim
whenever the filter does not write to `in`; when the filter returns false and
the substitute is not empty, with the substitute; not at all when the filter
returns false and the substitute is empty. -/
theorem send_filter_decision {σ : Type} (o : Out σ) (level : Level) (msg : LogString) :
    (o.send level msg).length ≤ 1 ∧
    o.send level msg =
      (if (o.m_filter level msg []).pass = true then
        [⟨o.m_sink, level, (o.m_filter level msg []).inMsg⟩]
      else if (o.m_filter level msg []).outMsg ≠ [] then
        [⟨o.m_sink, level, (o.m_filter level msg []).outMsg⟩]
      else []) ∧
    ((o.m_filter level msg []).inMsg = msg →
      o.send level msg =
        (if (o.m_filter level msg []).pass = true then [⟨o.m_sink, level, msg⟩]
        else if (o.m_filter level msg []).outMsg ≠ [] then
          [⟨o.m_sink, level, (o.m_filter level msg []).outMsg⟩]
        else [])) := by
  obtain ⟨m_filter, m_sink⟩ := o
  simp only [Out.send]
  generalize m_filter level msg [] = r
  rcases r with ⟨pass, inMsg, filteredMsg⟩
  cases pass <;> cases filteredMsg <;> simp

/-- Witness of `send_filter_decision`: a pass-all stage, whose filter leaves
`in` as it is, hands its sink the original message. -/
theorem send_filter_decision_witness :
    Out.send (⟨AnyFilter.filter, ()⟩ : Out Unit) Level.INFO "secret".toList
      = [⟨(), Level.INFO, "secret".toList⟩] :=
  ((send_filter_decision (⟨AnyFilter.filter, ()⟩ : Out Unit) Level.INFO
    "secret".toList).2.2 rfl).trans rfl

/-- C7 fails as stated for a filter that writes to its `in` argument: a filter
that overwrites the message with "***" and returns true makes the sink receive
"***", not the original "secret". -/
theorem send_filter_decision_counterexample :
    Out.send
        (⟨fun _ _ outMsg => { pass := true, inMsg := "***".toList, outMsg := outMsg }, ()⟩ :
          Out Unit)
        Level.INFO "secret".toList
      = [⟨(), Level.INFO, "***".toList⟩] ∧
    ([⟨(), Level.INFO, "***".toList⟩] : List (SinkCall Unit))
      ≠ [⟨(), Level.INFO, "secret".toList⟩] := by
  exact ⟨rfl, by decide⟩

/-! ## C8 : the chain of stages -/

theorem run_append {σ : Type} (level : Level) (msg : LogString) (a b : List (Out σ)) :
    OutListRunner.run level msg (a ++ b)
      = OutListRunner.run level msg a ++ OutListRunner.run level msg b := by
  induction a with
  | nil => simp [OutListRunner.run]
  | cons head tail ih => simp [OutListRunner.run, ih]

theorem run_eq_flatMap {σ : Type} (level : Level) (msg : LogString) (chain : List (Out σ)) :
    OutListRunner.run level msg chain = chain.flatMap (fun o => o.send level msg) := by
  induction chain with
  | nil => simp [OutListRunner.run]
  | cons head tail ih => simp [OutListRunner.run, ih]

/-- C8: `OutListRunner::run`, and `Logger::log` through it, sends the same
message to every stage once, head first: the sink calls are the concatenation,
in chain order, of the calls each stage makes when it alone receives the
message; what surrounds a stage in the chain does not change the calls of that
stage, and the empty chain makes none. -/
theorem run_chain_order {σ : Type} (TOptions : Options) (level : Level) (msg : LogString)
    (chain : List (Out σ)) :
    OutListRunner.run level msg chain
        = (chain.map (fun o => OutListRunner.run level msg [o])).flatten ∧
    (∀ o : Out σ, OutListRunner.run level msg [o] = o.send level msg) ∧
    (∀ (before after : List (Out σ)) (o : Out σ),
      OutListRunner.run level msg (before ++ o :: after)
        = OutListRunner.run level msg before ++ o.send level msg
            ++ OutListRunner.run level msg after) ∧
    OutListRunner.run level msg ([] : List (Out σ)) = [] ∧
    Logger.log TOptions ⟨chain⟩ level msg = OutListRunner.run level msg chain := by
  have hone : ∀ o : Out σ, OutListRunner.run level msg [o] = o.send level msg := by
    intro o
    simp [OutListRunner.run]
  refine ⟨?_, hone, ?_, rfl, ?_⟩
  · rw [run_eq_flatMap, List.flatMap_def]
    simp only [hone]
  · intro before after o
    rw [run_append, List.append_assoc]
    rfl
  · unfold Logger.log
    split <;> rfl

/-! ## C9 : the TRACE filter -/

/-- C9: a stage whose filter is `TraceFilter` hands the message unchanged to its
sink when the level is DEBUG, INFO, WARN, ERROR or FATAL, and does not call the
sink when the level is TRACE, so that nothing is written, whatever the sink
writes per call. -/
theorem traceFilter_stage {σ : Type} (sink : σ) (msg : LogString)
    (w : σ → Level → LogString → LogString) :
    Out.send ⟨TraceFilter.filter, sink⟩ Level.DEBUG msg = [⟨sink, Level.DEBUG, msg⟩] ∧
    Out.send ⟨TraceFilter.filter, sink⟩ Level.INFO msg = [⟨sink, Level.INFO, msg⟩] ∧
    Out.send ⟨TraceFilter.filter, sink⟩ Level.WARN msg = [⟨sink, Level.WARN, msg⟩] ∧
    Out.send ⟨TraceFilter.filter, sink⟩ Level.ERROR msg = [⟨sink, Level.ERROR, msg⟩] ∧
    Out.send ⟨TraceFilter.filter, sink⟩ Level.FATAL msg = [⟨sink, Level.FATAL, msg⟩] ∧
    Out.send ⟨TraceFilter.filter, sink⟩ Level.TRACE msg = [] ∧
    written w (Out.send ⟨TraceFilter.filter, sink⟩ Level.TRACE msg) = [] := by
  refine ⟨rfl, rfl, rfl, rfl, rfl, rfl, rfl⟩

/-! ## C10 : the demonstration message -/

theorem append_not_last {σ : Type} (TOptions : Options) (logger : Logger σ) (clock : Int)
    (fuel : Nat) (ma : MessageAccumulator) (value : Value) :
    ma.append TOptions logger clock fuel value false
      = some ({ ma with m_ss := Appender.append ma.m_ss value }, []) := by
  simp [MessageAccumulator.append]

theorem shiftAll_eq {σ : Type} (TOptions : Options) (logger : Logger σ) (clock : Int)
    (fuel : Nat) (values : List Value) :
    ∀ ma : MessageAccumulator, shiftAll TOptions logger clock fuel ma values
      = some (values.foldl (fun a v => { a with m_ss := Appender.append a.m_ss v }) ma, []) := by
  induction values with
  | nil => intro ma; rfl
  | cons value rest ih =>
    intro ma
    simp only [shiftAll, append_not_last, ih, List.foldl_cons, List.append_nil]

theorem append_basefield (ss : StrStream) (value : Value) (hv : value.isManip = false) :
    (Appender.append ss value).basefield = (baseOfToken value).getD ss.basefield ∧
    (Appender.append ss value).showbase = ss.showbase ∧
    (Appender.append ss value).boolalpha = ss.boolalpha := by
  cases value with
  | text s => exact ⟨rfl, rfl, rfl⟩
  | int v => exact ⟨rfl, rfl, rfl⟩
  | bool b => exact ⟨rfl, rfl, rfl⟩
  | control c => cases c <;> exact ⟨rfl, rfl, rfl⟩
  | manip m => exact absurd hv (by simp [Value.isManip])

theorem foldl_append_flags (values : List Value) :
    ∀ ss : StrStream, (∀ v ∈ values, v.isManip = false) →
      (values.foldl Appender.append ss).basefield
        = (values.reverse.findSome? baseOfToken).getD ss.basefield ∧
      (values.foldl Appender.append ss).showbase = ss.showbase ∧
      (values.foldl Appender.append ss).boolalpha = ss.boolalpha := by
  induction values with
  | nil => intro ss _; exact ⟨rfl, rfl, rfl⟩
  | cons value rest ih =>
    intro ss hv
    obtain ⟨hb, hs, ha⟩ :=
      ih (Appender.append ss value) (fun v h => hv v (List.mem_cons_of_mem _ h))
    obtain ⟨hb1, hs1, ha1⟩ := append_basefield ss value (hv value (List.mem_cons_self _ _))
    refine ⟨?_, by rw [List.foldl_cons, hs, hs1], by rw [List.foldl_cons, ha, ha1]⟩
    rw [List.foldl_cons, hb, hb1, List.reverse_cons, List.findSome?_append]
    cases List.findSome? baseOfToken rest.reverse with
    | some b => rfl
    | none => cases hv : baseOfToken value <;> simp [List.findSome?, hv]

theorem foldl_accumulator_stream (values : List Value) :
    ∀ ma : MessageAccumulator,
      (values.foldl (fun a v => { a with m_ss := Appender.append a.m_ss v }) ma)
        = { ma with m_ss := values.foldl Appender.append ma.m_ss } := by
  induction values with
  | nil => intro ma; rfl
  | cons value rest ih => intro ma; rw [List.foldl_cons, ih, List.foldl_cons]

theorem putInt_showbase (ss : StrStream) (hs : ss.showbase = true) (v : Int) :
    ss.putInt v = renderInBase ss.basefield v := by
  unfold StrStream.putInt renderInBase
  cases hb : ss.basefield with
  | dec => rfl
  | oct =>
    simp only [hs]
    by_cases h0 : v % 4294967296 = 0
    · simp [h0]
      decide
    · have hu : (v % 4294967296).toNat ≠ 0 := by omega
      simp [h0, hu]
  | hex =>
    simp only [hs]
    by_cases h0 : v % 4294967296 = 0
    · simp [h0]
      decide
    · have hu : (v % 4294967296).toNat ≠ 0 := by omega
      simp [h0, hu]

/-- C13 (amended): in the accumulator reached from a fresh one by any sequence
of appends of strings, integers, booleans and control tokens, no standard
manipulator among them, the base is the one set by the most recent base token
(decimal if none), however many other appends came after it; then a base token
(DEC, OCT, HEX) adds no characters and sets the base, NL adds exactly one line
break and leaves the base, an integer is rendered in that base, and a boolean
as the word "true" or "false". -/
theorem base_tokens_persist {σ : Type} (TOptions : Options) (logger : Logger σ) (clock : Int)
    (fuel : Nat) (level : Level) (values : List Value)
    (hvalues : ∀ v ∈ values, v.isManip = false) :
    ∃ ma : MessageAccumulator,
      shiftAll TOptions logger clock fuel (createLogEntry level) values = some (ma, []) ∧
      ma.m_ss.basefield = mostRecentBase values ∧
      Appender.append ma.m_ss (Value.control ControlValue.DEC)
        = { ma.m_ss with basefield := Base.dec } ∧
      Appender.append ma.m_ss (Value.control ControlValue.OCT)
        = { ma.m_ss with basefield := Base.oct } ∧
      Appender.append ma.m_ss (Value.control ControlValue.HEX)
        = { ma.m_ss with basefield := Base.hex } ∧
      Appender.append ma.m_ss (Value.control ControlValue.NL)
        = { ma.m_ss with str := ma.m_ss.str ++ ['\n'] } ∧
      (∀ v : Int, Appender.append ma.m_ss (Value.int v)
        = { ma.m_ss with str := ma.m_ss.str ++ renderInBase (mostRecentBase values) v }) ∧
      (∀ b : Bool, Appender.append ma.m_ss (Value.bool b)
        = { ma.m_ss with
            str := ma.m_ss.str ++ (if b then "true".toList else "false".toList) }) := by
  refine ⟨_, shiftAll_eq TOptions logger clock fuel values _, ?_⟩
  rw [foldl_accumulator_stream]
  obtain ⟨hb, hs, ha⟩ := foldl_append_flags values (createLogEntry level).m_ss hvalues
  have hb' : (values.foldl Appender.append (createLogEntry level).m_ss).basefield
      = mostRecentBase values := hb
  have hs' : (values.foldl Appender.append (createLogEntry level).m_ss).showbase = true := hs
  have ha' : (values.foldl Appender.append (createLogEntry level).m_ss).boolalpha = true := ha
  generalize values.foldl Appender.append (createLogEntry level).m_ss = ss at hb' hs' ha'
  refine ⟨hb', rfl, rfl, rfl, rfl, ?_, ?_⟩
  · intro v
    simp only [Appender.append, putInt_showbase ss hs' v, hb']
  · intro b
    simp only [Appender.append, StrStream.putBool, ha', if_true]

/-- Witness of `base_tokens_persist`: the appends of the demonstration statement
up to the HEX token, followed by a string; the base is still hexadecimal. -/
theorem base_tokens_persist_witness :
    (∀ v ∈ [Value.text "MLOG ".toList, Value.control ControlValue.HEX,
        Value.text " ".toList], v.isManip = false) ∧
    ∃ ma : MessageAccumulator,
      shiftAll Options.default (⟨[]⟩ : Logger Unit) 0 0 (createLogEntry Level.TRACE)
          [Value.text "MLOG ".toList, Value.control ControlValue.HEX,
            Value.text " ".toList] = some (ma, []) ∧
      ma.m_ss.basefield
        = mostRecentBase [Value.text "MLOG ".toList, Value.control ControlValue.HEX,
            Value.text " ".toList] ∧
      Appender.append ma.m_ss (Value.control ControlValue.DEC)
        = { ma.m_ss with basefield := Base.dec } ∧
      Appender.append ma.m_ss (Value.control ControlValue.OCT)
        = { ma.m_ss with basefield := Base.oct } ∧
      Appender.append ma.m_ss (Value.control ControlValue.HEX)
        = { ma.m_ss with basefield := Base.hex } ∧
      Appender.append ma.m_ss (Value.control ControlValue.NL)
        = { ma.m_ss with str := ma.m_ss.str ++ ['\n'] } ∧
      (∀ v : Int, Appender.append ma.m_ss (Value.int v)
        = { ma.m_ss with
            str := ma.m_ss.str ++ renderInBase
              (mostRecentBase [Value.text "MLOG ".toList, Value.control ControlValue.HEX,
                Value.text " ".toList]) v }) ∧
      (∀ b : Bool, Appender.append ma.m_ss (Value.bool b)
        = { ma.m_ss with
            str := ma.m_ss.str ++ (if b then "true".toList else "false".toList) }) :=
  ⟨by decide,
    base_tokens_persist Options.default (⟨[]⟩ : Logger Unit) 0 0 Level.TRACE
      [Value.text "MLOG ".toList, Value.control ControlValue.HEX, Value.text " ".toList]
      (by decide)⟩

/-- C13 fails as stated once a standard manipulator is appended, which the
generic appender accepts: after `std::hex`, with no base token appended, the
integer 777 is rendered `0x309`, not in decimal; and after `std::noboolalpha`
the boolean `true` is rendered `1`, not as a word. -/
theorem base_tokens_persist_counterexample :
    shiftAll Options.default (⟨[]⟩ : Logger Unit) 0 0 (createLogEntry Level.TRACE)
        [Value.manip StdManip.hex, Value.int 777]
      = some
          ({ m_level := Level.TRACE,
             m_ss := { str := "0x309".toList, basefield := Base.hex,
                       showbase := true, boolalpha := true } }, []) ∧
    mostRecentBase [Value.manip StdManip.hex] = Base.dec ∧
    renderInBase (mostRecentBase [Value.manip StdManip.hex]) 777 = "777".toList ∧
    shiftAll Options.default (⟨[]⟩ : Logger Unit) 0 0 (createLogEntry Level.TRACE)
        [Value.manip StdManip.noboolalpha, Value.bool true]
      = some
          ({ m_level := Level.TRACE,
             m_ss := { str := "1".toList, basefield := Base.dec,
                       showbase := true, boolalpha := false } }, []) := by
  decide

/-! ## C15 : the pass-all and pass-none filters -/

/-- C15: for every level and message, a stage whose filter is `AnyFilter` hands
exactly the original message to its sink, once, and a stage whose filter is
`NoneFilter` does not call its sink, so that nothing is written. -/
theorem anyFilter_noneFilter_stage {σ : Type} (sink : σ) (level : Level) (msg : LogString)
    (w : σ → Level → LogString → LogString) :
    Out.send ⟨AnyFilter.filter, sink⟩ level msg = [⟨sink, level, msg⟩] ∧
    written w (Out.send ⟨AnyFilter.filter, sink⟩ level msg) = w sink level msg ∧
    Out.send ⟨NoneFilter.filter, sink⟩ level msg = [] ∧
    written w (Out.send ⟨NoneFilter.filter, sink⟩ level msg) = [] := by
  refine ⟨rfl, ?_, rfl, rfl⟩
  simp [Out.send, AnyFilter.filter, written]

/-! ## C18 : the year scan -/

theorem wrapInt_le_max (x : Int) : wrapInt x ≤ 2147483647 := by
  unfold wrapInt
  omega

/-- With `totalDays` the largest `int`, the test of the year scan holds in every
state, so the scan never reaches its `return`. -/
theorem calcYearLoop_never_returns :
    ∀ (fuel : Nat) (sumDays currentYear : Int),
      calcYearLoop 2147483647 fuel sumDays currentYear = none := by
  intro fuel
  induction fuel with
  | zero => intro sumDays currentYear; rfl
  | succ fuel ih =>
    intro sumDays currentYear
    simp only [calcYearLoop, if_pos (wrapInt_le_max _)]
    exact ih _ _

/-- C18 (amended): for every `totalDays` with `0 ≤ totalDays ≤ 2^31 - 367`, the
scan of `calcYear` returns, given fuel above `totalDays`, a pair `(year,
overDays)` with `year ≥ 1970`, `0 ≤ overDays < daysInYear year` and `totalDays`
equal to `overDays` plus the sum of `daysInYear k` over `1970 ≤ k < year`. -/
theorem calcYear_scan (totalDays : Int) (fuel : Nat) (h0 : 0 ≤ totalDays)
    (h1 : totalDays ≤ 2147483281) (hf : totalDays < fuel) :
    ∃ year overDays : Int,
      calcYear fuel totalDays = some (year, overDays) ∧
      1970 ≤ year ∧ 0 ≤ overDays ∧ overDays < daysInYear year ∧
      totalDays = overDays + sumFrom daysInYear 1970 (year - 1970).toNat := by
  obtain ⟨n, overDays, hres, ho0, ho1, hsum⟩ :=
    calcYearLoop_spec totalDays h1 fuel 0 1970 (le_refl 0) h0 (le_refl 1970) (by norm_num)
      (by omega)
  refine ⟨1970 + n, overDays, hres, by omega, ho0, ho1, ?_⟩
  have e1 : ((1970 : Int) + n - 1970).toNat = n := by omega
  rw [e1]
  omega

/-- Witness of `calcYear_scan` at day 11574, 2001-09-09. -/
theorem calcYear_scan_witness :
    ∃ year overDays : Int,
      calcYear 11575 11574 = some (year, overDays) ∧
      1970 ≤ year ∧ 0 ≤ overDays ∧ overDays < daysInYear year ∧
      (11574 : Int) = overDays + sumFrom daysInYear 1970 (year - 1970).toNat :=
  calcYear_scan 11574 11575 (by decide) (by decide) (by decide)

/-- C18 fails as stated at `totalDays = 2^31 - 1`: in 32-bit arithmetic
`sumDays + daysInCurrentYear <= totalDays` holds whatever the sum wraps to, and
the scan returns for no amount of fuel. -/
theorem calcYear_scan_counterexample :
    ¬ ∃ (fuel : Nat) (r : Int × Int), calcYear fuel 2147483647 = some r := by
  rintro ⟨fuel, r, h⟩
  rw [calcYear, calcYearLoop_never_returns] at h
  exact Option.noConfusion h

/-! ## C19 : the date is a calendar date -/

theorem calcMonthLoop_assigns (overDays : Int) (isLeap : Bool) (h0 : 0 ≤ overDays)
    (h1 : overDays < if isLeap then 366 else 365) :
    ∃ (k : Nat) (rest : Int),
      calcMonthLoop overDays isLeap 12 0 1 = some ((1 : Int) + k, rest) ∧ (1 : Int) + k ≤ 12 ∧
      0 ≤ rest ∧ rest < daysInMonth (1 + k) isLeap := by
  have hT : overDays ≤ 2147483000 := by
    split at h1 <;> omega
  rcases calcMonthLoop_spec overDays isLeap hT 12 0 1 (le_refl 0) h0 (le_refl 1) (by norm_num)
    with ⟨k, rest, hres, hk, hr0, hr1, _⟩ | ⟨_, hsum⟩
  · exact ⟨k, rest, hres, hk, hr0, hr1⟩
  · rw [sumFrom_daysInMonth_year] at hsum
    omega

/-- C19 (amended): for every stored time with `0 ≤ m_time < 86400 * (2^31 -
366)`, `date` returns, given enough fuel, a valid calendar date: the loop of
`calcMonth` reaches its assigning branch, `1 ≤ month ≤ 12` and `1 ≤ day ≤
daysInMonth month (isLeapYear year)`; it yields neither 29 February in a
common year nor day 31 in a 30-day month. -/
theorem date_is_calendar_date (m_time : Int) (fuel : Nat) (month0 : Int) (h0 : 0 ≤ m_time)
    (h1 : m_time < 86400 * 2147483282) (hf : m_time / 86400 < fuel) :
    ∃ year overDays month rest : Int,
      calcYear fuel (m_time / 86400) = some (year, overDays) ∧
      calcMonthLoop overDays (isLeapYear year) 12 0 1 = some (month, rest) ∧
      date fuel ⟨m_time⟩ month0 = some (year, month, rest + 1) ∧
      1 ≤ month ∧ month ≤ 12 ∧
      1 ≤ rest + 1 ∧ rest + 1 ≤ daysInMonth month (isLeapYear year) ∧
      ¬ (month = 2 ∧ rest + 1 = 29 ∧ isLeapYear year = false) ∧
      ¬ (rest + 1 = 31 ∧ (month = 4 ∨ month = 6 ∨ month = 9 ∨ month = 11)) := by
  obtain ⟨n, overDays, hres, ho0, ho1, _⟩ :=
    calcYearLoop_spec (m_time / 86400) (by omega) fuel 0 1970 (le_refl 0) (by omega)
      (le_refl 1970) (by norm_num) (by omega)
  have ho1b : overDays < if isLeapYear (1970 + n) then 366 else 365 := by
    unfold daysInYear at ho1
    exact ho1
  obtain ⟨k, rest, hm, hk, hr0, hr1⟩ :=
    calcMonthLoop_assigns overDays (isLeapYear (1970 + n)) ho0 ho1b
  have hb := daysInMonth_bounds (1 + k) (isLeapYear (1970 + n)) (by omega) hk
  have hw : wrapInt (rest + 1) = rest + 1 := wrapInt_eq (by omega) (by omega)
  refine ⟨1970 + n, overDays, 1 + k, rest, hres, hm, ?_, by omega, hk, by omega, by omega,
    ?_, ?_⟩
  · simp only [date, totalDays_of_nonneg m_time h0 h1, calcYear, BASE_YEAR, calcMonth, hres,
      hm, hw]
  · rintro ⟨h2, h29, hl⟩
    rw [h2, hl] at hr1
    have : daysInMonth 2 false = 28 := by decide
    omega
  · rintro ⟨h31, hmo⟩
    rcases hmo with h | h | h | h <;> rw [h] at hr1 <;>
      cases hq : isLeapYear (1970 + n) <;> rw [hq] at hr1
    all_goals first
      | (have : daysInMonth 4 false = 30 := by decide) ; omega
      | (have : daysInMonth 4 true = 30 := by decide) ; omega
      | (have : daysInMonth 6 false = 30 := by decide) ; omega
      | (have : daysInMonth 6 true = 30 := by decide) ; omega
      | (have : daysInMonth 9 false = 30 := by decide) ; omega
      | (have : daysInMonth 9 true = 30 := by decide) ; omega
      | (have : daysInMonth 11 false = 30 := by decide) ; omega
      | (have : daysInMonth 11 true = 30 := by decide) ; omega

/-- Witness of `date_is_calendar_date` at 2001-09-09 01:46:40. -/
theorem date_is_calendar_date_witness :
    ∃ year overDays month rest : Int,
      calcYear 12000 ((1000000000 : Int) / 86400) = some (year, overDays) ∧
      calcMonthLoop overDays (isLeapYear year) 12 0 1 = some (month, rest) ∧
      date 12000 ⟨1000000000⟩ 0 = some (year, month, rest + 1) ∧
      1 ≤ month ∧ month ≤ 12 ∧
      1 ≤ rest + 1 ∧ rest + 1 ≤ daysInMonth month (isLeapYear year) ∧
      ¬ (month = 2 ∧ rest + 1 = 29 ∧ isLeapYear year = false) ∧
      ¬ (rest + 1 = 31 ∧ (month = 4 ∨ month = 6 ∨ month = 9 ∨ month = 11)) :=
  date_is_calendar_date 1000000000 12000 0 (by decide) (by decide) (by decide)

/-- C19 fails as stated at the stored time `86400 * 2^31`: the day count
leaves the 32-bit `int`, wraps to `-2^31`, and `date` returns day
`-2147483647` of January 1970. -/
theorem date_is_calendar_date_counterexample :
    date 64 ⟨185542587187200⟩ 0 = some (1970, 1, -2147483647) ∧
    ¬ ((1 : Int) ≤ -2147483647) := by
  exact ⟨by decide, by decide⟩

/-! ## C20 : the order of a numbered stage list -/

theorem numMarkedList_eq {σ : Type} (TItem : Nat → Out σ) :
    ∀ N : Nat, NumMarkedList TItem N = (List.range N).reverse.map (fun i => TItem (i + 1)) := by
  intro N
  induction N with
  | zero => rfl
  | succ N ih => simp [NumMarkedList, ih, List.range_succ]

/-- C20: `NumMarkedList<N, Item>::T` lists `Item<N>`, `Item<N-1>`, …, `Item<1>`:
for `N ≥ 1` its head is `Item<N>` and its last element `Item<1>`, and a message
dispatched through it visits the stages in that descending order; through the
`CharLogger` chain the file stage (`Item<2>`) is called before the console
stage (`Item<1>`). -/
theorem numMarkedList_descending {σ : Type} (TItem : Nat → Out σ) (N : Nat) (level : Level)
    (msg : LogString) (file : StdFileSink) (TOptions : Options) :
    NumMarkedList TItem N = (List.range N).reverse.map (fun i => TItem (i + 1)) ∧
    (NumMarkedList TItem (N + 1)).head? = some (TItem (N + 1)) ∧
    (NumMarkedList TItem (N + 1)).getLast? = some (TItem 1) ∧
    OutListRunner.run level msg (NumMarkedList TItem N)
      = (List.range N).reverse.flatMap (fun i => (TItem (i + 1)).send level msg) ∧
    CharLogger.OutList file
      = [⟨AnyFilter.filter, Sink.StdFileSink file⟩, ⟨AnyFilter.filter, Sink.CoutSink⟩] ∧
    Logger.log TOptions ⟨CharLogger.OutList file⟩ level msg
      = [⟨Sink.StdFileSink file, level, msg⟩, ⟨Sink.CoutSink, level, msg⟩] := by
  refine ⟨numMarkedList_eq TItem N, rfl, ?_, ?_, rfl, ?_⟩
  · rw [numMarkedList_eq]
    simp [List.range_succ_eq_map, List.getLast?_eq_getLast]
  · rw [run_eq_flatMap, numMarkedList_eq]
    simp only [List.flatMap_def, List.map_map, List.map_reverse]
    rfl
  · unfold Logger.log
    split <;> rfl

/-! ## C12 : the time and date strings -/

theorem putPadded_nat_two_digits :
    ∀ n : Nat, n < 100 → putPadded 2 '0' (n : Int) = twoDigits n := by
  decide

theorem putPadded_two_digits (v : Int) (h0 : 0 ≤ v) (h1 : v < 100) :
    putPadded 2 (DefStr.zero.getD 0 ' ') v = twoDigits v := by
  obtain ⟨n, rfl⟩ := Int.eq_ofNat_of_zero_le h0
  exact putPadded_nat_two_digits n (by omega)

theorem putDec_of_nonneg (v : Int) (h0 : 0 ≤ v) : putDec v = decimal v := by
  unfold putDec decimal
  rw [if_neg (by omega)]
  rfl

theorem monthNumToStr_abbrev (m : Int) (h1 : 1 ≤ m) (h2 : m ≤ 12) :
    monthNumToStr m = (monthAbbrev m).toList := by
  have hm : m = 1 ∨ m = 2 ∨ m = 3 ∨ m = 4 ∨ m = 5 ∨ m = 6 ∨
      m = 7 ∨ m = 8 ∨ m = 9 ∨ m = 10 ∨ m = 11 ∨ m = 12 := by omega
  rcases hm with h | h | h | h | h | h | h | h | h | h | h | h <;> subst h <;> decide

/-- Method `strTime` on a non-negative stored time: `HH:MM:SS`. -/
theorem strTime_of_nonneg (s : Int) (h0 : 0 ≤ s) :
    strTime ⟨s⟩ = twoDigits (s % 86400 / 3600) ++ ":".toList
      ++ twoDigits (s % 86400 % 3600 / 60) ++ ":".toList
      ++ twoDigits (s % 86400 % 3600 % 60) := by
  simp only [strTime, time_of_nonneg s h0]
  rw [putPadded_two_digits _ (by omega) (by omega), putPadded_two_digits _ (by omega) (by omega),
    putPadded_two_digits _ (by omega) (by omega)]
  simp [DefStr.colon, twoDigits]

/-- Method `strDate` in the supported range: year, separator, month
abbreviation, separator, two-digit day. -/
theorem strDate_in_range (s : Int) (fuel : Nat) (noSpace : Bool) (h0 : 0 ≤ s)
    (h1 : s < 86400 * 2147483282) (hf : s / 86400 < fuel) :
    ∃ year month day : Int,
      date fuel ⟨s⟩ 0 = some (year, month, day) ∧
      1970 ≤ year ∧ 1 ≤ month ∧ month ≤ 12 ∧ 1 ≤ day ∧ day ≤ 31 ∧
      strDate fuel ⟨s⟩ noSpace
        = some (decimal year ++ [if noSpace then '_' else ' '] ++ (monthAbbrev month).toList
            ++ [if noSpace then '_' else ' '] ++ twoDigits day) := by
  obtain ⟨year, month, day, hd, hy, hm1, hm12, hd1, hd2, _⟩ :=
    date_of_totalDays ⟨s⟩ (s / 86400) (totalDays_of_nonneg s h0 h1) (by omega) (by omega)
      fuel hf 0
  have hb := daysInMonth_bounds month (isLeapYear year) hm1 hm12
  refine ⟨year, month, day, hd, hy, hm1, hm12, hd1, by omega, ?_⟩
  simp only [strDate, hd]
  rw [putDec_of_nonneg year (by omega), monthNumToStr_abbrev month hm1 hm12,
    putPadded_two_digits day (by omega) (by omega)]
  cases noSpace <;> simp [DefStr.under, DefStr.space]

theorem digitChar_ne_space : ∀ k : Nat, k < 10 → Nat.digitChar k ≠ ' ' := by
  decide

theorem toDigitsCore_ne_space :
    ∀ (fuel n : Nat) (ds : List Char), (∀ c ∈ ds, c ≠ ' ') →
      ∀ c ∈ Nat.toDigitsCore 10 fuel n ds, c ≠ ' ' := by
  intro fuel
  induction fuel with
  | zero => intro n ds hds c hc; exact hds c hc
  | succ fuel ih =>
    intro n ds hds c hc
    have hcons : ∀ c ∈ Nat.digitChar (n % 10) :: ds, c ≠ ' ' := by
      intro c hc
      rcases List.mem_cons.1 hc with h | h
      · rw [h]
        exact digitChar_ne_space _ (Nat.mod_lt _ (by norm_num))
      · exact hds c h
    simp only [Nat.toDigitsCore] at hc
    split at hc
    · exact hcons c hc
    · exact ih _ _ hcons c hc

theorem decimal_ne_space (v : Int) : ∀ c ∈ decimal v, c ≠ ' ' := by
  intro c hc
  exact toDigitsCore_ne_space _ _ [] (by simp) c hc

theorem twoDigits_ne_space (v : Int) (h0 : 0 ≤ v) (h1 : v < 100) :
    ∀ c ∈ twoDigits v, c ≠ ' ' := by
  intro c hc
  simp only [twoDigits, List.mem_cons, List.mem_singleton, List.not_mem_nil, or_false] at hc
  rcases hc with h | h <;> rw [h] <;> exact digitChar_ne_space _ (by omega)

theorem monthAbbrev_ne_space (m : Int) : ∀ c ∈ (monthAbbrev m).toList, c ≠ ' ' := by
  by_cases h : 1 ≤ m ∧ m ≤ 12
  · obtain ⟨h1, h2⟩ := h
    have hm : m = 1 ∨ m = 2 ∨ m = 3 ∨ m = 4 ∨ m = 5 ∨ m = 6 ∨
        m = 7 ∨ m = 8 ∨ m = 9 ∨ m = 10 ∨ m = 11 ∨ m = 12 := by omega
    rcases hm with h | h | h | h | h | h | h | h | h | h | h | h <;> subst h <;> decide
  · have he : monthAbbrev m = "" := by
      unfold monthAbbrev
      split <;> first | omega | rfl
    rw [he]
    decide

theorem map_underscore_of_ne_space (l : List Char) (h : ∀ c ∈ l, c ≠ ' ') :
    l.map (fun c => if c = ' ' then '_' else c) = l := by
  induction l with
  | nil => rfl
  | cons a l ih =>
    rw [List.map_cons, ih (fun c hc => h c (List.mem_cons_of_mem a hc)),
      if_neg (h a (List.mem_cons_self a l))]

/-- C12 (amended): for every stored time `m_time ≥ 0`, `strTime` is exactly 8
characters `HH:MM:SS`, hour, minute and second each as two zero-padded decimal
digits; and for `m_time < 86400 * (2^31 - 366)`, `strDate noSpace` is, given
enough fuel, the decimal year, a separator, the 3-letter abbreviation of the
month, the same separator and the day as two zero-padded digits, the separator
being a space when `noSpace` is false and an underscore when it is true, so
that `strDate true` is `strDate false` with each space replaced by an
underscore. -/
theorem strTime_strDate_form (m_time : Int) (h0 : 0 ≤ m_time) :
    (∃ hour minute second : Int,
      time ⟨m_time⟩ = (hour, minute, second) ∧
      0 ≤ hour ∧ hour ≤ 23 ∧ 0 ≤ minute ∧ minute ≤ 59 ∧ 0 ≤ second ∧ second ≤ 59 ∧
      strTime ⟨m_time⟩
        = twoDigits hour ++ ":".toList ++ twoDigits minute ++ ":".toList ++ twoDigits second ∧
      (strTime ⟨m_time⟩).length = 8) ∧
    (∀ fuel : Nat, m_time < 86400 * 2147483282 → m_time / 86400 < fuel →
      ∃ year month day : Int,
        date fuel ⟨m_time⟩ 0 = some (year, month, day) ∧
        1970 ≤ year ∧ 1 ≤ month ∧ month ≤ 12 ∧ 1 ≤ day ∧ day ≤ 31 ∧
        strDate fuel ⟨m_time⟩ false
          = some (decimal year ++ [' '] ++ (monthAbbrev month).toList ++ [' ']
              ++ twoDigits day) ∧
        strDate fuel ⟨m_time⟩ true
          = some (decimal year ++ ['_'] ++ (monthAbbrev month).toList ++ ['_']
              ++ twoDigits day) ∧
        strDate fuel ⟨m_time⟩ true
          = (strDate fuel ⟨m_time⟩ false).map
              (List.map (fun c => if c = ' ' then '_' else c))) := by
  constructor
  · refine ⟨_, _, _, time_of_nonneg m_time h0, by omega, by omega, by omega, by omega, by omega,
      by omega, strTime_of_nonneg m_time h0, ?_⟩
    rw [strTime_of_nonneg m_time h0]
    simp [twoDigits]
  · intro fuel h1 hf
    obtain ⟨year, month, day, hd, hy, hm1, hm12, hd1, hd31, hfalse⟩ :=
      strDate_in_range m_time fuel false h0 h1 hf
    obtain ⟨year2, month2, day2, hd2, _, _, _, _, _, htrue⟩ :=
      strDate_in_range m_time fuel true h0 h1 hf
    rw [hd] at hd2
    obtain ⟨rfl, rfl, rfl⟩ : year = year2 ∧ month = month2 ∧ day = day2 := by
      simpa using hd2
    simp only [Bool.false_eq_true, if_false, if_true] at hfalse htrue
    refine ⟨year, month, day, hd, hy, hm1, hm12, hd1, hd31, hfalse, htrue, ?_⟩
    rw [hfalse, htrue]
    simp only [Option.map_some', List.map_append, List.map_cons, List.map_nil, if_true,
      map_underscore_of_ne_space _ (decimal_ne_space year),
      map_underscore_of_ne_space _ (monthAbbrev_ne_space month),
      map_underscore_of_ne_space _ (twoDigits_ne_space day (by omega) (by omega))]

/-- Witness of `strTime_strDate_form` at 2001-09-09 01:46:40. -/
theorem strTime_strDate_form_witness :
    (∃ hour minute second : Int,
      time ⟨1000000000⟩ = (hour, minute, second) ∧
      0 ≤ hour ∧ hour ≤ 23 ∧ 0 ≤ minute ∧ minute ≤ 59 ∧ 0 ≤ second ∧ second ≤ 59 ∧
      strTime ⟨1000000000⟩
        = twoDigits hour ++ ":".toList ++ twoDigits minute ++ ":".toList ++ twoDigits second ∧
      (strTime ⟨1000000000⟩).length = 8) ∧
    strDate 12000 ⟨1000000000⟩ false = some "2001 Sep 09".toList ∧
    strDate 12000 ⟨1000000000⟩ true = some "2001_Sep_09".toList :=
  ⟨(strTime_strDate_form 1000000000 (by decide)).1, by decide, by decide⟩

/-- C12 fails as stated at the stored time `86400 * 2^31`: the day count wraps
to `-2^31` and `strDate` renders the day as `-2147483647`, not as two digits. -/
theorem strTime_strDate_form_counterexample :
    strDate 64 ⟨185542587187200⟩ false = some "1970 Jan -2147483647".toList ∧
    strDate 64 ⟨185542587187200⟩ true = some "1970_Jan_-2147483647".toList := by
  exact ⟨by decide, by decide⟩

/-! ## When the date is printed : the terminal append returns -/

theorem new_clock (clock off : Int) (hoff0 : -2147483648 ≤ off) (hoff1 : off < 2147483648)
    (h0 : -9223372036854775808 ≤ clock + off * 3600)
    (h1 : clock + off * 3600 < 9223372036854775808) :
    DateTime.new clock off 0 = ⟨clock + off * 3600⟩ := by
  have h := new_m_time clock off 0 hoff0 hoff1 (by simpa using h0) (by simpa using h1)
  simpa using h

/-- Method `date` on a negative day count: the scans stop at once, in January
1970, and hand the count on as the day. -/
theorem date_of_negative_totalDays (dt : DateTime) (T : Int)
    (hT : wrapInt (dt.m_time.tdiv SEC_IN_DAY) = T) (h0 : T < 0) (h1 : -2147483648 ≤ T)
    (fuel : Nat) (hf : 0 < fuel) (month0 : Int) :
    date fuel dt month0 = some (1970, 1, wrapInt (T + 1)) := by
  obtain ⟨k, rfl⟩ : ∃ k, fuel = k + 1 := ⟨fuel - 1, by omega⟩
  have hy : daysInYear 1970 = 365 := by decide
  have hl : isLeapYear 1970 = false := by decide
  have hm : daysInMonth 1 false = 31 := by decide
  have w1 : wrapInt (0 + 365) = 365 := by decide
  have w2 : wrapInt (0 + 31) = 31 := by decide
  have w3 : wrapInt (T - 0) = T := by
    rw [sub_zero]
    exact wrapInt_eq (by omega) (by omega)
  have c1 : ¬ ((365 : Int) ≤ T) := by omega
  have c2 : ¬ ((31 : Int) ≤ T) := by omega
  simp only [date, hT, calcYear, BASE_YEAR, calcYearLoop, hy, w1, if_neg c1, w3, hl, calcMonth,
    calcMonthLoop, hm, w2, if_neg c2]
  simp

theorem date_returns (s : Int) (fuel : Nat) (month0 : Int)
    (h0 : -(86400 * 2147483282) < s) (h1 : s < 86400 * 2147483282) (hf0 : 0 < fuel)
    (hf : s / 86400 < fuel) :
    ∃ r, date fuel ⟨s⟩ month0 = some r := by
  by_cases hs : 0 ≤ s
  · obtain ⟨year, month, day, hd, _⟩ :=
      date_of_totalDays ⟨s⟩ (s / 86400) (totalDays_of_nonneg s hs h1) (by omega) (by omega)
        fuel hf month0
    exact ⟨_, hd⟩
  · have e1 : SEC_IN_DAY = 86400 := by unfold SEC_IN_DAY; norm_num
    have hT : wrapInt ((DateTime.mk s).m_time.tdiv SEC_IN_DAY) = -(-s / 86400) := by
      rw [e1]
      show wrapInt (s.tdiv 86400) = -(-s / 86400)
      rw [tdiv_of_nonpos (by omega) (by norm_num)]
      exact wrapInt_eq (by omega) (by omega)
    by_cases hz : -s / 86400 = 0
    · rw [hz] at hT
      obtain ⟨year, month, day, hd, _⟩ :=
        date_of_totalDays ⟨s⟩ 0 hT (le_refl 0) (by norm_num) fuel (by exact_mod_cast hf0) month0
      exact ⟨_, hd⟩
    · exact ⟨_, date_of_negative_totalDays ⟨s⟩ _ hT (by omega) (by omega) fuel hf0 month0⟩

theorem strDate_returns (s : Int) (fuel : Nat) (noSpace : Bool)
    (h0 : -(86400 * 2147483282) < s) (h1 : s < 86400 * 2147483282) (hf0 : 0 < fuel)
    (hf : s / 86400 < fuel) :
    ∃ d, strDate fuel ⟨s⟩ noSpace = some d := by
  obtain ⟨⟨y, m, d⟩, hd⟩ := date_returns s fuel 0 h0 h1 hf0 hf
  simp only [strDate, hd]
  exact ⟨_, rfl⟩

/-- Method `additionMsg` once `strDate` has returned `d`. -/
theorem additionMsg_eq (TOptions : Options) (clock : Int) (fuel : Nat) (ma : MessageAccumulator)
    (d : LogString)
    (hd : TOptions.printDate = true →
      strDate fuel (DateTime.new clock TOptions.deltaUTC 0) false = some d) :
    ma.additionMsg TOptions clock fuel
      = some ("[".toList ++ strLevel ma.m_level ++ "] ".toList
          ++ (if TOptions.printDate then "[".toList ++ d ++ "] ".toList else [])
          ++ (if TOptions.printTime then
                "[".toList ++ strTime (DateTime.new clock TOptions.deltaUTC 0) ++ "] ".toList
              else [])) := by
  cases hpd : TOptions.printDate <;> cases hpt : TOptions.printTime <;>
    simp [MessageAccumulator.additionMsg, hpd, hpt, hd, DefStr.openSqBracket,
      DefStr.closeSqBracket, DefStr.space]

theorem date_never_returns (dt : DateTime)
    (hT : wrapInt (dt.m_time.tdiv SEC_IN_DAY) = 2147483647) (fuel : Nat) (month0 : Int) :
    date fuel dt month0 = none := by
  simp only [date, hT, calcYear, calcYearLoop_never_returns]

theorem additionMsg_never_returns (TOptions : Options) (clock : Int) (ma : MessageAccumulator)
    (hp : TOptions.printDate = true)
    (hT : wrapInt ((DateTime.new clock TOptions.deltaUTC 0).m_time.tdiv SEC_IN_DAY)
      = 2147483647) (fuel : Nat) :
    ma.additionMsg TOptions clock fuel = none := by
  simp [MessageAccumulator.additionMsg, hp, strDate, date_never_returns _ hT]

theorem printed_date_returns (TOptions : Options) (clock : Int) (fuel : Nat)
    (hr : TOptions.printDate = true →
      -2147483648 ≤ TOptions.deltaUTC ∧ TOptions.deltaUTC < 2147483648 ∧
      -(86400 * 2147483282) < clock + TOptions.deltaUTC * 3600 ∧
      clock + TOptions.deltaUTC * 3600 < 86400 * 2147483282 ∧
      0 < fuel ∧ (clock + TOptions.deltaUTC * 3600) / 86400 < fuel) :
    ∃ dateStr : LogString, TOptions.printDate = true →
      strDate fuel (DateTime.new clock TOptions.deltaUTC 0) false = some dateStr := by
  by_cases hp : TOptions.printDate = true
  · obtain ⟨ho0, ho1, h0, h1, hf0, hf⟩ := hr hp
    obtain ⟨d, hd⟩ := strDate_returns _ fuel false h0 h1 hf0 hf
    refine ⟨d, fun _ => ?_⟩
    rw [new_clock clock _ ho0 ho1 (by omega) (by omega)]
    exact hd
  · exact ⟨[], fun h => absurd h hp⟩

/-- Method `append` with `isLast = true` once `strDate` has returned `dateStr`. -/
theorem append_last_eq {σ : Type} (TOptions : Options) (logger : Logger σ) (clock : Int)
    (fuel : Nat) (ma : MessageAccumulator) (value : Value) (dateStr : LogString)
    (hd : TOptions.printDate = true →
      strDate fuel (DateTime.new clock TOptions.deltaUTC 0) false = some dateStr) :
    ma.append TOptions logger clock fuel value true
      = some ({ ma with m_ss := Appender.append ma.m_ss value },
          logger.log TOptions ma.m_level
            ("[".toList ++ strLevel ma.m_level ++ "] ".toList
              ++ (if TOptions.printDate then "[".toList ++ dateStr ++ "] ".toList else [])
              ++ (if TOptions.printTime then
                    "[".toList ++ strTime (DateTime.new clock TOptions.deltaUTC 0)
                      ++ "] ".toList
                  else [])
              ++ (Appender.append ma.m_ss value).str)) := by
  simp only [MessageAccumulator.append, if_true]
  rw [additionMsg_eq TOptions clock fuel _ dateStr hd]

/-! ## The first use of the logger : `Logger::instance` returns -/

theorem stdFileSink_new_returns (TSinkOpt : OptionsForStdFileSink) (clock : Int) (fuel : Nat)
    (h : (SinkType.StdFileSink TSinkOpt).inRange clock fuel) :
    ∃ file, StdFileSink.new TSinkOpt clock fuel = some file := by
  cases hflag : TSinkOpt.addDateTimeToFilename with
  | false =>
    simp only [StdFileSink.new, hflag]
    exact ⟨_, rfl⟩
  | true =>
    obtain ⟨ho0, ho1, h0, h1, hf0, hf⟩ := h hflag
    obtain ⟨d, hd⟩ := strDate_returns _ fuel true h0 h1 hf0 hf
    rw [← new_clock clock _ ho0 ho1 (by omega) (by omega)] at hd
    simp only [StdFileSink.new, hflag, hd, if_true]
    exact ⟨_, rfl⟩

theorem sinkType_new_returns (TSink : SinkType) (clock : Int) (fuel : Nat)
    (h : TSink.inRange clock fuel) : ∃ sink, TSink.new clock fuel = some sink := by
  cases TSink with
  | CoutSink => exact ⟨_, rfl⟩
  | StdFileSink TSinkOpt =>
    obtain ⟨file, hfile⟩ := stdFileSink_new_returns TSinkOpt clock fuel h
    simp only [SinkType.new, hfile]
    exact ⟨_, rfl⟩

theorem outList_new_returns (fuel : Nat) (TOutList : List (Out SinkType)) :
    ∀ clock : Nat → Int, chainInRange TOutList clock fuel →
      ∃ m_sinkList, OutList.new TOutList clock fuel = some m_sinkList := by
  induction TOutList with
  | nil => intro clock _; exact ⟨_, rfl⟩
  | cons THead TTail ih =>
    intro clock h
    obtain ⟨sink, hsink⟩ := sinkType_new_returns THead.m_sink (clock 0) fuel h.1
    obtain ⟨tail, htail⟩ := ih (fun k => clock (k + 1)) h.2
    simp only [OutList.new, Out.new, hsink, htail]
    exact ⟨_, rfl⟩

/-- Function `Logger::instance()` returns when the instance exists already, and
on first use when every sink of the chain is in range at its construction. -/
theorem instance_returns (TOutList : List (Out SinkType)) (ctorClock : Nat → Int) (fuel : Nat)
    (m_instance : Option (Logger Sink))
    (hinst : m_instance = none → chainInRange TOutList ctorClock fuel) :
    ∃ logger, Logger.instance TOutList ctorClock fuel m_instance = some logger := by
  cases m_instance with
  | some logger => exact ⟨logger, rfl⟩
  | none =>
    obtain ⟨m_sinkList, h⟩ := outList_new_returns fuel TOutList ctorClock (hinst rfl)
    simp only [Logger.instance, Logger.create, h]
    exact ⟨_, rfl⟩

/-- Function `create` on the chain of `MinLogger` gives the console stage. -/
theorem create_minLogger (clock : Nat → Int) (fuel : Nat) :
    Logger.create MinLogger.TOutList clock fuel = some ⟨MinLogger.OutList⟩ := rfl

/-- Function `create` on the chain of `CharLogger` constructs the file sink
first and gives the stage list around it. -/
theorem create_charLogger (clock : Nat → Int) (fuel : Nat) :
    Logger.create CharLogger.TOutList clock fuel
      = (StdFileSink.new CharLogger.FileSinkOptions (clock 0) fuel).map
          (fun file => ⟨CharLogger.OutList file⟩) := by
  simp only [Logger.create, CharLogger.TOutList, NumMarkedList, CharLogger.TData, OutList.new,
    Out.new, SinkType.new]
  cases StdFileSink.new CharLogger.FileSinkOptions (clock 0) fuel <;> rfl

/-- Function `create` on the chain of `WCharLogger` constructs the file sink
first and gives the stage list around it. -/
theorem create_wcharLogger (clock : Nat → Int) (fuel : Nat) :
    Logger.create WCharLogger.TOutList clock fuel
      = (StdFileSink.new WCharLogger.FileSinkOptions (clock 0) fuel).map
          (fun file => ⟨WCharLogger.OutList file⟩) := by
  simp only [Logger.create, WCharLogger.TOutList, NumMarkedList, WCharLogger.TData, OutList.new,
    Out.new, SinkType.new]
  cases StdFileSink.new WCharLogger.FileSinkOptions (clock 0) fuel <;> rfl

/-- The file sink of `CharLogger`, constructed while the clock reads
`86400 * (2^31 - 1) - 3 * 3600`, makes `Logger::instance()` never return on
first use. -/
theorem instance_never_returns (fuel : Nat) :
    Logger.instance CharLogger.TOutList (fun _ => 185542587090000) fuel none = none := by
  have hT : wrapInt ((DateTime.new 185542587090000 CharLogger.FileSinkOptions.deltaUTC
      0).m_time.tdiv SEC_IN_DAY) = 2147483647 := by decide
  have hflag : CharLogger.FileSinkOptions.addDateTimeToFilename = true := rfl
  have hnew : StdFileSink.new CharLogger.FileSinkOptions 185542587090000 fuel = none := by
    simp only [StdFileSink.new, hflag, if_true, strDate, date_never_returns _ hT]
  simp [Logger.instance, Logger.create, CharLogger.TOutList, NumMarkedList, CharLogger.TData,
    OutList.new, Out.new, SinkType.new, hnew]

/-- The terminal `append` with the static state is `instance()` followed by the
terminal `append` on the instance it returns. -/
theorem appendStatic_eq_append (TOptions : Options) (TOutList : List (Out SinkType))
    (ctorClock : Nat → Int) (clock : Int) (fuel : Nat) (m_instance : Option (Logger Sink))
    (ma : MessageAccumulator) (value : Value) :
    ma.appendStatic TOptions TOutList ctorClock clock fuel m_instance value true
      = (Logger.instance TOutList ctorClock fuel m_instance).bind (fun logger =>
          (ma.append TOptions logger clock fuel value true).map
            (fun r => (r.1, r.2, some logger))) := by
  simp only [MessageAccumulator.appendStatic, MessageAccumulator.append, if_true]
  cases Logger.instance TOutList ctorClock fuel m_instance with
  | none => rfl
  | some logger =>
    simp only [Option.bind]
    cases MessageAccumulator.additionMsg TOptions clock fuel
      { ma with m_ss := Appender.append ma.m_ss value } <;> rfl

theorem appendStatic_not_last (TOptions : Options) (TOutList : List (Out SinkType))
    (ctorClock : Nat → Int) (clock : Int) (fuel : Nat) (m_instance : Option (Logger Sink))
    (ma : MessageAccumulator) (value : Value) :
    ma.appendStatic TOptions TOutList ctorClock clock fuel m_instance value false
      = some ({ ma with m_ss := Appender.append ma.m_ss value }, [], m_instance) := by
  simp [MessageAccumulator.appendStatic]

theorem shiftAllStatic_eq (TOptions : Options) (TOutList : List (Out SinkType))
    (ctorClock : Nat → Int) (clock : Int) (fuel : Nat) (m_instance : Option (Logger Sink))
    (values : List Value) :
    ∀ ma : MessageAccumulator,
      shiftAllStatic TOptions TOutList ctorClock clock fuel m_instance ma values
        = some (values.foldl (fun a v => { a with m_ss := Appender.append a.m_ss v }) ma, [],
            m_instance) := by
  induction values with
  | nil => intro ma; rfl
  | cons value rest ih =>
    intro ma
    simp only [shiftAllStatic, appendStatic_not_last, ih, List.foldl_cons, List.nil_append]

/-- Method `append` with `isLast = true` and the static state, once `instance()`
has returned `logger` and `strDate` has returned `dateStr`. -/
theorem appendStatic_last_eq (TOptions : Options) (TOutList : List (Out SinkType))
    (ctorClock : Nat → Int) (clock : Int) (fuel : Nat) (m_instance : Option (Logger Sink))
    (ma : MessageAccumulator) (value : Value) (logger : Logger Sink) (dateStr : LogString)
    (hi : Logger.instance TOutList ctorClock fuel m_instance = some logger)
    (hd : TOptions.printDate = true →
      strDate fuel (DateTime.new clock TOptions.deltaUTC 0) false = some dateStr) :
    ma.appendStatic TOptions TOutList ctorClock clock fuel m_instance value true
      = some ({ ma with m_ss := Appender.append ma.m_ss value },
          logger.log TOptions ma.m_level
            ("[".toList ++ strLevel ma.m_level ++ "] ".toList
              ++ (if TOptions.printDate then "[".toList ++ dateStr ++ "] ".toList else [])
              ++ (if TOptions.printTime then
                    "[".toList ++ strTime (DateTime.new clock TOptions.deltaUTC 0)
                      ++ "] ".toList
                  else [])
              ++ (Appender.append ma.m_ss value).str),
          some logger) := by
  simp only [MessageAccumulator.appendStatic, if_true, hi]
  rw [additionMsg_eq TOptions clock fuel _ dateStr hd]

/-- The statement `ma << v₁ << … << vₙ <<= last` with the static state, once
`instance()` has returned `logger` and `strDate` has returned `dateStr`. -/
theorem shiftAllThenLastStatic_eq (TOptions : Options) (TOutList : List (Out SinkType))
    (ctorClock : Nat → Int) (clock : Int) (fuel : Nat) (m_instance : Option (Logger Sink))
    (ma : MessageAccumulator) (values : List Value) (last : Value) (logger : Logger Sink)
    (dateStr : LogString)
    (hi : Logger.instance TOutList ctorClock fuel m_instance = some logger)
    (hd : TOptions.printDate = true →
      strDate fuel (DateTime.new clock TOptions.deltaUTC 0) false = some dateStr) :
    shiftAllThenLastStatic TOptions TOutList ctorClock clock fuel m_instance ma values last
      = some ({ m_level := ma.m_level,
                m_ss := (values ++ [last]).foldl Appender.append ma.m_ss },
          logger.log TOptions ma.m_level
            ("[".toList ++ strLevel ma.m_level ++ "] ".toList
              ++ (if TOptions.printDate then "[".toList ++ dateStr ++ "] ".toList else [])
              ++ (if TOptions.printTime then
                    "[".toList ++ strTime (DateTime.new clock TOptions.deltaUTC 0)
                      ++ "] ".toList
                  else [])
              ++ ((values ++ [last]).foldl Appender.append ma.m_ss).str),
          some logger) := by
  simp only [shiftAllThenLastStatic, shiftAllStatic_eq, foldl_accumulator_stream,
    appendStatic_last_eq TOptions TOutList ctorClock clock fuel m_instance _ last logger dateStr
      hi hd,
    List.nil_append, List.foldl_append, List.foldl_cons, List.foldl_nil]

/-! ## C11 : the composed message -/

/-- C11 (amended): let `s` be the clock reading plus `deltaUTC * 3600`.  For
every level, flag setting and buffer, whenever the logger instance exists
already or every sink of its chain is in range at its construction (a file
sink that adds the date to its name being constructed at a clock reading that
its own `deltaUTC * 3600` shifts to less than `86400 * (2^31 - 366)` in
absolute value), and the clock reading of the append, when the date is
printed, has `|s| < 86400 * (2^31 - 366)`, a terminal append hands
`Logger::log` of the instance the string "[" + strLevel + "] ", then
"[" + strDate + "] " exactly when `printDate` is set, then "[" + strTime + "] "
exactly when `printTime` is set, then the buffer text, date and time being
those of one `DateTime`; when moreover `0 ≤ s`, both flags are set and the
level is TRACE, what precedes the buffer is "[TRACE] [YYYY Mon DD] [HH:MM:SS] "
with a decimal year, a month abbreviation and two-digit day, hour, minute and
second. -/
theorem terminal_message_format (TOptions : Options) (TOutList : List (Out SinkType))
    (ctorClock : Nat → Int) (clock : Int) (fuel : Nat) (m_instance : Option (Logger Sink))
    (ma : MessageAccumulator) (value : Value)
    (hinst : m_instance = none → chainInRange TOutList ctorClock fuel)
    (hr : TOptions.printDate = true →
      -2147483648 ≤ TOptions.deltaUTC ∧ TOptions.deltaUTC < 2147483648 ∧
      -(86400 * 2147483282) < clock + TOptions.deltaUTC * 3600 ∧
      clock + TOptions.deltaUTC * 3600 < 86400 * 2147483282 ∧
      0 < fuel ∧ (clock + TOptions.deltaUTC * 3600) / 86400 < fuel) :
    ∃ (dateStr : LogString) (logger : Logger Sink),
      (TOptions.printDate = true →
        strDate fuel (DateTime.new clock TOptions.deltaUTC 0) false = some dateStr) ∧
      Logger.instance TOutList ctorClock fuel m_instance = some logger ∧
      ma.appendStatic TOptions TOutList ctorClock clock fuel m_instance value true
        = some ({ ma with m_ss := Appender.append ma.m_ss value },
            logger.log TOptions ma.m_level
              ("[".toList ++ strLevel ma.m_level ++ "] ".toList
                ++ (if TOptions.printDate then "[".toList ++ dateStr ++ "] ".toList else [])
                ++ (if TOptions.printTime then
                      "[".toList ++ strTime (DateTime.new clock TOptions.deltaUTC 0)
                        ++ "] ".toList
                    else [])
                ++ (Appender.append ma.m_ss value).str),
            some logger) ∧
      (ma.m_level = Level.TRACE → TOptions.printDate = true → TOptions.printTime = true →
        0 ≤ clock + TOptions.deltaUTC * 3600 →
        ∃ year month day hour minute second : Int,
          date fuel (DateTime.new clock TOptions.deltaUTC 0) 0 = some (year, month, day) ∧
          time (DateTime.new clock TOptions.deltaUTC 0) = (hour, minute, second) ∧
          1970 ≤ year ∧ 1 ≤ month ∧ month ≤ 12 ∧ 1 ≤ day ∧ day ≤ 31 ∧
          0 ≤ hour ∧ hour ≤ 23 ∧ 0 ≤ minute ∧ minute ≤ 59 ∧ 0 ≤ second ∧ second ≤ 59 ∧
          "[".toList ++ strLevel ma.m_level ++ "] ".toList
              ++ ("[".toList ++ dateStr ++ "] ".toList)
              ++ ("[".toList ++ strTime (DateTime.new clock TOptions.deltaUTC 0)
                    ++ "] ".toList)
            = "[TRACE] [".toList ++ decimal year ++ " ".toList ++ (monthAbbrev month).toList
                ++ " ".toList ++ twoDigits day ++ "] [".toList ++ twoDigits hour
                ++ ":".toList ++ twoDigits minute ++ ":".toList ++ twoDigits second
                ++ "] ".toList) := by
  obtain ⟨dateStr, hd⟩ := printed_date_returns TOptions clock fuel hr
  obtain ⟨logger, hi⟩ := instance_returns TOutList ctorClock fuel m_instance hinst
  refine ⟨dateStr, logger, hd, hi,
    appendStatic_last_eq TOptions TOutList ctorClock clock fuel m_instance ma value logger
      dateStr hi hd, ?_⟩
  · intro hl hp _ hs
    obtain ⟨ho0, ho1, _, h1, _, hf⟩ := hr hp
    have hdate := hd hp
    rw [new_clock clock _ ho0 ho1 (by omega) (by omega)] at hdate ⊢
    obtain ⟨year, month, day, hdt, hy, hm1, hm12, hd1, hd31, hform⟩ :=
      strDate_in_range _ fuel false hs h1 hf
    rw [hform] at hdate
    have hds : dateStr = decimal year ++ [' '] ++ (monthAbbrev month).toList ++ [' ']
        ++ twoDigits day := by
      simpa using hdate.symm
    refine ⟨year, month, day, _, _, _, hdt, time_of_nonneg _ hs, hy, hm1, hm12, hd1, hd31,
      by omega, by omega, by omega, by omega, by omega, by omega, ?_⟩
    rw [hds, strTime_of_nonneg _ hs, hl]
    have hT : strLevel Level.TRACE = "TRACE".toList := by decide
    rw [hT]
    simp [List.append_assoc]

/-- Witness of `terminal_message_format`: the first use of the `CharLogger`
chain, its options, the clock at 2001-09-09 01:46:40 throughout, a fresh TRACE
accumulator and the terminal append 888; the file sink is constructed on
"./myapp_log-2001_Sep_09-04:46:40", and it and the console receive
"[TRACE] [2001 Sep 09] [04:46:40] 888". -/
theorem terminal_message_format_witness :
    (∃ (dateStr : LogString) (logger : Logger Sink),
      (CharLogger.Options.printDate = true →
        strDate 12000 (DateTime.new 1000000000 CharLogger.Options.deltaUTC 0) false
          = some dateStr) ∧
      Logger.instance CharLogger.TOutList (fun _ => 1000000000) 12000 none = some logger ∧
      (createLogEntry Level.TRACE).appendStatic CharLogger.Options CharLogger.TOutList
          (fun _ => 1000000000) 1000000000 12000 none (Value.int 888) true
        = some ({ createLogEntry Level.TRACE with
                  m_ss := Appender.append (createLogEntry Level.TRACE).m_ss (Value.int 888) },
            logger.log CharLogger.Options (createLogEntry Level.TRACE).m_level
              ("[".toList ++ strLevel (createLogEntry Level.TRACE).m_level ++ "] ".toList
                ++ (if CharLogger.Options.printDate then "[".toList ++ dateStr ++ "] ".toList
                    else [])
                ++ (if CharLogger.Options.printTime then
                      "[".toList
                        ++ strTime (DateTime.new 1000000000 CharLogger.Options.deltaUTC 0)
                        ++ "] ".toList
                    else [])
                ++ (Appender.append (createLogEntry Level.TRACE).m_ss (Value.int 888)).str),
            some logger) ∧
      ((createLogEntry Level.TRACE).m_level = Level.TRACE →
        CharLogger.Options.printDate = true → CharLogger.Options.printTime = true →
        0 ≤ 1000000000 + CharLogger.Options.deltaUTC * 3600 →
        ∃ year month day hour minute second : Int,
          date 12000 (DateTime.new 1000000000 CharLogger.Options.deltaUTC 0) 0
            = some (year, month, day) ∧
          time (DateTime.new 1000000000 CharLogger.Options.deltaUTC 0)
            = (hour, minute, second) ∧
          1970 ≤ year ∧ 1 ≤ month ∧ month ≤ 12 ∧ 1 ≤ day ∧ day ≤ 31 ∧
          0 ≤ hour ∧ hour ≤ 23 ∧ 0 ≤ minute ∧ minute ≤ 59 ∧ 0 ≤ second ∧ second ≤ 59 ∧
          "[".toList ++ strLevel (createLogEntry Level.TRACE).m_level ++ "] ".toList
              ++ ("[".toList ++ dateStr ++ "] ".toList)
              ++ ("[".toList
                    ++ strTime (DateTime.new 1000000000 CharLogger.Options.deltaUTC 0)
                    ++ "] ".toList)
            = "[TRACE] [".toList ++ decimal year ++ " ".toList ++ (monthAbbrev month).toList
                ++ " ".toList ++ twoDigits day ++ "] [".toList ++ twoDigits hour
                ++ ":".toList ++ twoDigits minute ++ ":".toList ++ twoDigits second
                ++ "] ".toList)) ∧
    ((createLogEntry Level.TRACE).appendStatic CharLogger.Options CharLogger.TOutList
          (fun _ => 1000000000) 1000000000 12000 none (Value.int 888) true).map
        (fun r => r.2.1)
      = some
          [⟨Sink.StdFileSink
              { filename := "./myapp_log-2001_Sep_09-04:46:40".toList,
                mode := { out := true, trunc := true, app := false } },
            Level.TRACE, "[TRACE] [2001 Sep 09] [04:46:40] 888".toList⟩,
           ⟨Sink.CoutSink, Level.TRACE, "[TRACE] [2001 Sep 09] [04:46:40] 888".toList⟩] :=
  ⟨terminal_message_format CharLogger.Options CharLogger.TOutList (fun _ => 1000000000)
      1000000000 12000 none (createLogEntry Level.TRACE) (Value.int 888)
      (fun _ => by decide)
      (fun _ => ⟨by decide, by decide, by decide, by decide, by decide, by decide⟩),
    by decide⟩

/-- C11 fails as stated: at the clock reading 100 with `deltaUTC = -1` the
stored time is negative and the time block is "[00:-58:-20]"; at the clock
reading `86400 * (2^31 - 1)` with the date printed the year scan of `strDate`
never returns and no string is handed on; and with date and time printing off,
on the first use of the `CharLogger` chain while the clock reads
`86400 * (2^31 - 1) - 3 * 3600`, `Logger::instance()` never returns from the
construction of the file sink and no string is handed on either. -/
theorem terminal_message_format_counterexample :
    ((createLogEntry Level.TRACE).appendStatic { Options.default with deltaUTC := -1 }
        MinLogger.TOutList (fun _ => 100) 100 1 none (Value.int 888) true).map
        (fun r => r.2.1)
      = some
          [⟨Sink.CoutSink, Level.TRACE,
            "[TRACE] [1970 Jan 01] [00:-58:-20] 888".toList⟩] ∧
    (¬ ∃ (fuel : Nat) (r : MessageAccumulator × List (SinkCall Sink) × Option (Logger Sink)),
        (createLogEntry Level.TRACE).appendStatic Options.default MinLogger.TOutList
          (fun _ => 185542587100800) 185542587100800 fuel none (Value.int 888) true
          = some r) ∧
    ¬ ∃ (fuel : Nat) (r : MessageAccumulator × List (SinkCall Sink) × Option (Logger Sink)),
        (createLogEntry Level.TRACE).appendStatic
          { CharLogger.Options with printDate := false, printTime := false }
          CharLogger.TOutList (fun _ => 185542587090000) 185542587090000 fuel none
          (Value.int 888) true
          = some r := by
  refine ⟨by decide, ?_, ?_⟩
  · rintro ⟨fuel, r, h⟩
    have hi : ∃ logger, Logger.instance MinLogger.TOutList (fun _ => 185542587100800) fuel none
        = some logger := ⟨_, rfl⟩
    obtain ⟨logger, hi⟩ := hi
    simp only [MessageAccumulator.appendStatic, if_true, hi] at h
    rw [additionMsg_never_returns Options.default 185542587100800 _ rfl (by decide) fuel] at h
    exact Option.noConfusion h
  · rintro ⟨fuel, r, h⟩
    simp only [MessageAccumulator.appendStatic, if_true, instance_never_returns fuel] at h
    exact Option.noConfusion h

/-! ## C14 : only the terminal append dispatches -/

/-- C14 (amended): for every accumulator, every sequence of non-terminal appends
(values, NL and base tokens alike) calls no sink and constructs no logger,
whatever the clock, so an accumulator that is never terminated produces no
output; and the terminal append that follows hands the logger instance exactly
one message, provided that the instance exists already or every sink of its
chain is in range at its construction (a file sink that adds the date to its
name being constructed at a clock reading that its own `deltaUTC * 3600`
shifts to less than `86400 * (2^31 - 366)` in absolute value), and that date
printing is off or the clock reading of the append plus `deltaUTC * 3600` is
below `86400 * (2^31 - 366)` in absolute value, so that each year scan
returns. -/
theorem dispatch_only_on_terminal (TOptions : Options) (TOutList : List (Out SinkType))
    (ctorClock : Nat → Int) (clock : Int) (fuel : Nat) (m_instance : Option (Logger Sink))
    (ma : MessageAccumulator) (values : List Value) (last : Value)
    (hinst : m_instance = none → chainInRange TOutList ctorClock fuel)
    (hr : TOptions.printDate = true →
      -2147483648 ≤ TOptions.deltaUTC ∧ TOptions.deltaUTC < 2147483648 ∧
      -(86400 * 2147483282) < clock + TOptions.deltaUTC * 3600 ∧
      clock + TOptions.deltaUTC * 3600 < 86400 * 2147483282 ∧
      0 < fuel ∧ (clock + TOptions.deltaUTC * 3600) / 86400 < fuel) :
    ∃ (ma1 ma2 : MessageAccumulator) (logger : Logger Sink) (msg : LogString),
      (∀ (ctorClock0 : Nat → Int) (clock0 : Int) (fuel0 : Nat)
          (m_instance0 : Option (Logger Sink)),
        shiftAllStatic TOptions TOutList ctorClock0 clock0 fuel0 m_instance0 ma values
          = some (ma1, [], m_instance0) ∧
        ∀ value : Value, ∃ ma3 : MessageAccumulator,
          ma1.appendStatic TOptions TOutList ctorClock0 clock0 fuel0 m_instance0 value false
            = some (ma3, [], m_instance0)) ∧
      Logger.instance TOutList ctorClock fuel m_instance = some logger ∧
      ma1.appendStatic TOptions TOutList ctorClock clock fuel m_instance last true
        = some (ma2, logger.log TOptions ma.m_level msg, some logger) ∧
      shiftAllThenLastStatic TOptions TOutList ctorClock clock fuel m_instance ma values last
        = some (ma2, logger.log TOptions ma.m_level msg, some logger) := by
  have hlevel : (values.foldl (fun a v => { a with m_ss := Appender.append a.m_ss v }) ma).m_level
      = ma.m_level := by
    rw [foldl_accumulator_stream]
  obtain ⟨dateStr, hd⟩ := printed_date_returns TOptions clock fuel hr
  obtain ⟨logger, hi⟩ := instance_returns TOutList ctorClock fuel m_instance hinst
  have hshift := fun (ctorClock0 : Nat → Int) (clock0 : Int) (fuel0 : Nat)
      (m_instance0 : Option (Logger Sink)) =>
    shiftAllStatic_eq TOptions TOutList ctorClock0 clock0 fuel0 m_instance0 values ma
  generalize hma1 : values.foldl (fun a v => { a with m_ss := Appender.append a.m_ss v }) ma
    = ma1 at hlevel hshift
  refine ⟨ma1, { m_level := ma.m_level, m_ss := Appender.append ma1.m_ss last }, logger,
    "[".toList ++ strLevel ma.m_level ++ "] ".toList
      ++ (if TOptions.printDate then "[".toList ++ dateStr ++ "] ".toList else [])
      ++ (if TOptions.printTime then
            "[".toList ++ strTime (DateTime.new clock TOptions.deltaUTC 0) ++ "] ".toList
          else [])
      ++ (Appender.append ma1.m_ss last).str, ?_, hi, ?_⟩
  · intro ctorClock0 clock0 fuel0 m_instance0
    exact ⟨hshift ctorClock0 clock0 fuel0 m_instance0, fun value =>
      ⟨_, appendStatic_not_last TOptions TOutList ctorClock0 clock0 fuel0 m_instance0 _ value⟩⟩
  · have happ := appendStatic_last_eq TOptions TOutList ctorClock clock fuel m_instance ma1 last
      logger dateStr hi hd
    rw [hlevel] at happ
    refine ⟨happ, ?_⟩
    simp only [shiftAllThenLastStatic, hshift, happ, List.nil_append]

/-- Witness of `dispatch_only_on_terminal`: the first use of the `CharLogger`
chain, its options, the clock at 2001-09-09 01:46:40 throughout, a fresh TRACE
accumulator, one append and the terminal append 888. -/
theorem dispatch_only_on_terminal_witness :
    ∃ (ma1 ma2 : MessageAccumulator) (logger : Logger Sink) (msg : LogString),
      (∀ (ctorClock0 : Nat → Int) (clock0 : Int) (fuel0 : Nat)
          (m_instance0 : Option (Logger Sink)),
        shiftAllStatic CharLogger.Options CharLogger.TOutList ctorClock0 clock0 fuel0
            m_instance0 (createLogEntry Level.TRACE) [Value.text "ALOG ".toList]
          = some (ma1, [], m_instance0) ∧
        ∀ value : Value, ∃ ma3 : MessageAccumulator,
          ma1.appendStatic CharLogger.Options CharLogger.TOutList ctorClock0 clock0 fuel0
              m_instance0 value false
            = some (ma3, [], m_instance0)) ∧
      Logger.instance CharLogger.TOutList (fun _ => 1000000000) 12000 none = some logger ∧
      ma1.appendStatic CharLogger.Options CharLogger.TOutList (fun _ => 1000000000)
          1000000000 12000 none (Value.int 888) true
        = some (ma2,
            logger.log CharLogger.Options (createLogEntry Level.TRACE).m_level msg,
            some logger) ∧
      shiftAllThenLastStatic CharLogger.Options CharLogger.TOutList (fun _ => 1000000000)
          1000000000 12000 none (createLogEntry Level.TRACE) [Value.text "ALOG ".toList]
          (Value.int 888)
        = some (ma2,
            logger.log CharLogger.Options (createLogEntry Level.TRACE).m_level msg,
            some logger) :=
  dispatch_only_on_terminal CharLogger.Options CharLogger.TOutList (fun _ => 1000000000)
    1000000000 12000 none (createLogEntry Level.TRACE) [Value.text "ALOG ".toList]
    (Value.int 888)
    (fun _ => by decide)
    (fun _ => ⟨by decide, by decide, by decide, by decide, by decide, by decide⟩)

/-- C14 fails as stated at the clock reading `86400 * (2^31 - 1)` with date
printing on: the year scan inside `additionMsg` never returns, so the statement
`MLOG::trace() << "MLOG " <<= 888` dispatches no message, whatever the fuel;
and with date and time printing off, on the first use of the `CharLogger`
chain while the clock reads `86400 * (2^31 - 1) - 3 * 3600`,
`Logger::instance()` never returns from the construction of the file sink, so
the statement `ALOG::trace() << "ALOG " <<= 888` dispatches no message
either. -/
theorem dispatch_only_on_terminal_counterexample :
    (¬ ∃ (fuel : Nat) (r : MessageAccumulator × List (SinkCall Sink) × Option (Logger Sink)),
        shiftAllThenLastStatic Options.default MinLogger.TOutList (fun _ => 185542587100800)
          185542587100800 fuel none (createLogEntry Level.TRACE) [Value.text "MLOG ".toList]
          (Value.int 888)
          = some r) ∧
    ¬ ∃ (fuel : Nat) (r : MessageAccumulator × List (SinkCall Sink) × Option (Logger Sink)),
        shiftAllThenLastStatic
          { CharLogger.Options with printDate := false, printTime := false }
          CharLogger.TOutList (fun _ => 185542587090000) 185542587090000 fuel none
          (createLogEntry Level.TRACE) [Value.text "ALOG ".toList] (Value.int 888)
          = some r := by
  constructor
  · rintro ⟨fuel, r, h⟩
    have hi : ∃ logger, Logger.instance MinLogger.TOutList (fun _ => 185542587100800) fuel none
        = some logger := ⟨_, rfl⟩
    obtain ⟨logger, hi⟩ := hi
    simp only [shiftAllThenLastStatic, shiftAllStatic_eq, MessageAccumulator.appendStatic,
      if_true, hi] at h
    rw [additionMsg_never_returns Options.default 185542587100800 _ rfl (by decide) fuel] at h
    exact Option.noConfusion h
  · rintro ⟨fuel, r, h⟩
    simp only [shiftAllThenLastStatic, shiftAllStatic_eq, MessageAccumulator.appendStatic,
      if_true, instance_never_returns fuel] at h
    exact Option.noConfusion h

/-! ## C16 : the name of the log file -/

/-- C16 (amended): for every base filename, `StdFileSink` opens the base
filename alone when `addDateTimeToFilename` is false; when it is true, for
every 32-bit UTC offset and every construction instant with `0 ≤ instant +
offset * 3600 < 86400 * (2^31 - 366)`, it opens, given enough fuel, the base
filename followed by "-", the date as decimal year, "_", month abbreviation,
"_", two-digit day, then "-" and the time `HH:MM:SS`; the appended suffix
contains no space. -/
theorem stdFileSink_filename (TSinkOpt : OptionsForStdFileSink) (clock : Int) (fuel : Nat)
    (hr : TSinkOpt.addDateTimeToFilename = true →
      -2147483648 ≤ TSinkOpt.deltaUTC ∧ TSinkOpt.deltaUTC < 2147483648 ∧
      0 ≤ clock + TSinkOpt.deltaUTC * 3600 ∧
      clock + TSinkOpt.deltaUTC * 3600 < 86400 * 2147483282 ∧
      (clock + TSinkOpt.deltaUTC * 3600) / 86400 < fuel) :
    ∃ suffix : LogString,
      StdFileSink.new TSinkOpt clock fuel
        = some { filename := TSinkOpt.filename ++ suffix,
                 mode := { out := true, trunc := TSinkOpt.clearIfExist,
                           app := !TSinkOpt.clearIfExist } } ∧
      ' ' ∉ suffix ∧
      (TSinkOpt.addDateTimeToFilename = false → suffix = []) ∧
      (TSinkOpt.addDateTimeToFilename = true →
        ∃ year month day hour minute second : Int,
          date fuel (DateTime.new clock TSinkOpt.deltaUTC 0) 0 = some (year, month, day) ∧
          time (DateTime.new clock TSinkOpt.deltaUTC 0) = (hour, minute, second) ∧
          1970 ≤ year ∧ 1 ≤ month ∧ month ≤ 12 ∧ 1 ≤ day ∧ day ≤ 31 ∧
          0 ≤ hour ∧ hour ≤ 23 ∧ 0 ≤ minute ∧ minute ≤ 59 ∧ 0 ≤ second ∧ second ≤ 59 ∧
          suffix = "-".toList ++ (decimal year ++ "_".toList ++ (monthAbbrev month).toList
                ++ "_".toList ++ twoDigits day)
              ++ "-".toList ++ (twoDigits hour ++ ":".toList ++ twoDigits minute
                ++ ":".toList ++ twoDigits second)) := by
  by_cases hflag : TSinkOpt.addDateTimeToFilename = true
  · obtain ⟨ho0, ho1, h0, h1, hf⟩ := hr hflag
    rw [new_clock clock _ ho0 ho1 (by omega) (by omega)]
    obtain ⟨year, month, day, hdt, hy, hm1, hm12, hd1, hd31, hform⟩ :=
      strDate_in_range _ fuel true h0 h1 hf
    have htime := strTime_of_nonneg _ h0
    refine ⟨"-".toList ++ (decimal year ++ "_".toList ++ (monthAbbrev month).toList
        ++ "_".toList ++ twoDigits day) ++ "-".toList
        ++ (twoDigits ((clock + TSinkOpt.deltaUTC * 3600) % 86400 / 3600) ++ ":".toList
          ++ twoDigits ((clock + TSinkOpt.deltaUTC * 3600) % 86400 % 3600 / 60) ++ ":".toList
          ++ twoDigits ((clock + TSinkOpt.deltaUTC * 3600) % 86400 % 3600 % 60)), ?_, ?_, ?_, ?_⟩
    · simp only [StdFileSink.new, hflag, if_true,
        new_clock clock _ ho0 ho1 (by omega) (by omega), hform, htime]
      simp
    · have n1 := decimal_ne_space year
      have n2 := monthAbbrev_ne_space month
      have n3 := twoDigits_ne_space day (by omega) (by omega)
      have n4 := twoDigits_ne_space ((clock + TSinkOpt.deltaUTC * 3600) % 86400 / 3600)
        (by omega) (by omega)
      have n5 := twoDigits_ne_space ((clock + TSinkOpt.deltaUTC * 3600) % 86400 % 3600 / 60)
        (by omega) (by omega)
      have n6 := twoDigits_ne_space ((clock + TSinkOpt.deltaUTC * 3600) % 86400 % 3600 % 60)
        (by omega) (by omega)
      have dash : ∀ c ∈ "-".toList, c ≠ ' ' := by decide
      have und : ∀ c ∈ "_".toList, c ≠ ' ' := by decide
      have col : ∀ c ∈ ":".toList, c ≠ ' ' := by decide
      have hall : ∀ c ∈ "-".toList ++ (decimal year ++ "_".toList ++ (monthAbbrev month).toList
          ++ "_".toList ++ twoDigits day) ++ "-".toList
          ++ (twoDigits ((clock + TSinkOpt.deltaUTC * 3600) % 86400 / 3600) ++ ":".toList
            ++ twoDigits ((clock + TSinkOpt.deltaUTC * 3600) % 86400 % 3600 / 60)
            ++ ":".toList
            ++ twoDigits ((clock + TSinkOpt.deltaUTC * 3600) % 86400 % 3600 % 60)),
          c ≠ ' ' := by
        simp only [List.forall_mem_append]
        exact ⟨⟨⟨dash, ⟨⟨⟨⟨n1, und⟩, n2⟩, und⟩, n3⟩⟩, dash⟩, ⟨⟨⟨⟨n4, col⟩, n5⟩, col⟩, n6⟩⟩
      exact fun hmem => hall ' ' hmem rfl
    · intro hfalse
      rw [hflag] at hfalse
      exact absurd hfalse (by decide)
    · intro _
      exact ⟨year, month, day, _, _, _, hdt, time_of_nonneg _ h0, hy, hm1, hm12, hd1, hd31,
        by omega, by omega, by omega, by omega, by omega, by omega, rfl⟩
  · have hfalse : TSinkOpt.addDateTimeToFilename = false := by
      cases h : TSinkOpt.addDateTimeToFilename
      · rfl
      · exact absurd h hflag
    refine ⟨[], ?_, by simp, fun _ => rfl, fun h => absurd h hflag⟩
    simp [StdFileSink.new, hfalse]

/-- Witness of `stdFileSink_filename`: the file sink of `CharLogger`, constructed
at 2001-09-09 01:46:40 UTC, three hours east. -/
theorem stdFileSink_filename_witness :
    (∃ suffix : LogString,
      StdFileSink.new CharLogger.FileSinkOptions 1000000000 12000
        = some { filename := CharLogger.FileSinkOptions.filename ++ suffix,
                 mode := { out := true, trunc := CharLogger.FileSinkOptions.clearIfExist,
                           app := !CharLogger.FileSinkOptions.clearIfExist } } ∧
      ' ' ∉ suffix) ∧
    StdFileSink.new CharLogger.FileSinkOptions 1000000000 12000
      = some { filename := "./myapp_log-2001_Sep_09-04:46:40".toList,
               mode := { out := true, trunc := true, app := false } } :=
  ⟨(stdFileSink_filename CharLogger.FileSinkOptions 1000000000 12000
      (fun _ => ⟨by decide, by decide, by decide, by decide, by decide⟩)).imp
      (fun _ h => ⟨h.1, h.2.1⟩),
    by decide⟩

/-- C16 fails as stated at the construction instant 100 with offset -1, where
the stored time is negative and the name ends in "00:-58:-20", and at the
instant `86400 * (2^31 - 1)`, where the year scan of `strDate` never returns
and no file is opened. -/
theorem stdFileSink_filename_counterexample :
    StdFileSink.new { OptionsForStdFileSink.default with deltaUTC := -1 } 100 1
      = some { filename := "./log-1970_Jan_01-00:-58:-20".toList,
               mode := { out := true, trunc := true, app := false } } ∧
    ¬ ∃ (fuel : Nat) (r : StdFileSink),
        StdFileSink.new OptionsForStdFileSink.default 185542587100800 fuel = some r := by
  refine ⟨by decide, ?_⟩
  rintro ⟨fuel, r, h⟩
  have hT : wrapInt ((DateTime.new 185542587100800 OptionsForStdFileSink.default.deltaUTC
      0).m_time.tdiv SEC_IN_DAY) = 2147483647 := by decide
  have hflag : OptionsForStdFileSink.default.addDateTimeToFilename = true := rfl
  simp only [StdFileSink.new, hflag, if_true, strDate, date_never_returns _ hT] at h
  exact Option.noConfusion h

/-! ## C22 : the parser of compound strings -/

theorem compound_cons_cons (c d : LogString) (rest : List LogString) :
    compound (c :: d :: rest) = c ++ ' ' :: compound (d :: rest) := rfl

theorem compound_length (L : Nat) :
    ∀ comps : List LogString, (∀ c ∈ comps, c.length = L) →
      (compound comps).length + 1 = comps.length * (L + 1) ∨ comps = [] := by
  intro comps
  induction comps with
  | nil => intro _; exact Or.inr rfl
  | cons c rest ih =>
    intro h
    left
    cases rest with
    | nil =>
      have hc := h c (List.mem_cons_self c [])
      simp [compound, hc]
    | cons d rest =>
      have hc := h c (List.mem_cons_self c _)
      rcases ih (fun x hx => h x (List.mem_cons_of_mem c hx)) with h1 | h1
      · rw [compound_cons_cons, List.length_append, List.length_cons, hc]
        simp only [List.length_cons] at h1 ⊢
        rw [Nat.add_mul] at h1
        rw [Nat.add_mul, Nat.add_mul]
        omega
      · exact absurd h1 (List.cons_ne_nil d rest)

theorem compound_component (L : Nat) :
    ∀ (comps : List LogString), (∀ c ∈ comps, c.length = L) →
      ∀ i : Nat, i < comps.length →
        ((compound comps).drop (i * (L + 1))).take L = comps.getD i [] := by
  intro comps
  induction comps with
  | nil => intro _ i hi; simp at hi
  | cons c rest ih =>
    intro h i hi
    have hc := h c (List.mem_cons_self c _)
    cases rest with
    | nil =>
      have hi0 : i = 0 := by simpa using hi
      subst hi0
      simp [compound, ← hc]
    | cons d rest =>
      rw [compound_cons_cons]
      cases i with
      | zero =>
        simp only [Nat.zero_mul, List.drop_zero, List.getD_cons_zero]
        rw [← hc, List.take_left']
        rfl
      | succ j =>
        have hj : j < (d :: rest).length := by simpa using hi
        have hdrop : (c ++ ' ' :: compound (d :: rest)).drop ((j + 1) * (L + 1))
            = (compound (d :: rest)).drop (j * (L + 1)) := by
          have e : (j + 1) * (L + 1) = (c ++ [' ']).length + j * (L + 1) := by
            rw [List.length_append, hc, Nat.add_mul]
            simp
            omega
          have e2 : c ++ ' ' :: compound (d :: rest) = (c ++ [' ']) ++ compound (d :: rest) := by
            simp
          rw [e, e2, List.drop_append]
        rw [hdrop, ih (fun x hx => h x (List.mem_cons_of_mem c hx)) j hj]
        rfl

theorem toSizeT_of_nonneg (x : Int) (h0 : 0 ≤ x) (h1 : x < 18446744073709551616) :
    toSizeT x = x.toNat := by
  unfold toSizeT
  omega

theorem toSizeT_of_neg (x : Int) (h0 : -2147483648 ≤ x) (h1 : x < 0) :
    9223372036854775808 ≤ toSizeT x := by
  unfold toSizeT
  omega

theorem monthAbbrev_outside (m : Int) (h : ¬ (1 ≤ m ∧ m ≤ 12)) : monthAbbrev m = "" := by
  unfold monthAbbrev
  split <;> first | omega | rfl

theorem monthNumToStr_eq (m : Int) : monthNumToStr m = (monthAbbrev m).toList := by
  by_cases h : 1 ≤ m ∧ m ≤ 12
  · exact monthNumToStr_abbrev m h.1 h.2
  · rw [monthAbbrev_outside m h]
    have h' : m ≤ 0 ∨ m > 12 := by omega
    simp [monthNumToStr, h']

/-- Method `parse` on a compound string when neither `Len + 1` nor the position
`n * (Len + 1)` leaves the 32-bit `int`. -/
theorem parse_compound (L : Nat) (comps : List LogString) (n : Int)
    (hL : (L : Int) + 1 < 2147483648) (hcomp : ∀ c ∈ comps, c.length = L)
    (hp0 : -2147483648 ≤ n * ((L : Int) + 1)) (hp1 : n * ((L : Int) + 1) < 2147483648)
    (hsize : (compound comps).length < 9223372036854775808) :
    DefStr.Parser.parse L (compound comps) n
      = if 0 ≤ n ∧ n < comps.length then comps.getD n.toNat [] else [] := by
  have hw1 : wrapInt ((L : Int) + 1) = (L : Int) + 1 := wrapInt_eq (by omega) hL
  have hw2 : wrapInt (n * ((L : Int) + 1)) = n * ((L : Int) + 1) := wrapInt_eq hp0 hp1
  have hLs : toSizeT (L : Int) = L := by
    rw [toSizeT_of_nonneg _ (by omega) (by omega)]
    simp
  simp only [DefStr.Parser.parse, hw1, hw2, hLs]
  by_cases hn : 0 ≤ n
  · obtain ⟨i, rfl⟩ := Int.eq_ofNat_of_zero_le hn
    have hP : (i : Int) * ((L : Int) + 1) = ((i * (L + 1) : Nat) : Int) := by push_cast; ring
    rw [hP] at hp1 ⊢
    rw [toSizeT_of_nonneg _ (by omega) (by omega), Int.toNat_ofNat, Int.toNat_ofNat]
    by_cases hi : i < comps.length
    · have hcond : (0 : Int) ≤ (i : Int) ∧ (i : Int) < (comps.length : Int) :=
        ⟨hn, by exact_mod_cast hi⟩
      rw [if_pos hcond]
      by_cases hlt : i * (L + 1) < (compound comps).length
      · rw [if_pos hlt]
        exact compound_component L comps hcomp i hi
      · rw [if_neg hlt]
        have hlen := compound_length L comps hcomp
        have hne : comps ≠ [] := by
          intro h
          rw [h] at hi
          simp at hi
        rcases hlen with hlen | hlen
        · have hmul : (i + 1) * (L + 1) ≤ comps.length * (L + 1) :=
            Nat.mul_le_mul_right _ hi
          rw [Nat.add_mul] at hmul
          have hL0 : L = 0 := by omega
          have hmem : comps.getD i [] ∈ comps := by
            rw [List.getD_eq_getElem _ _ hi]
            exact List.getElem_mem _
          have := hcomp _ hmem
          rw [hL0] at this
          exact (List.length_eq_zero.1 this).symm
        · exact absurd hlen hne
    · have hcond : ¬ ((0 : Int) ≤ (i : Int) ∧ (i : Int) < (comps.length : Int)) := by
        intro h
        exact hi (by exact_mod_cast h.2)
      rw [if_neg hcond]
      have hlt : ¬ i * (L + 1) < (compound comps).length := by
        rcases compound_length L comps hcomp with hlen | hlen
        · have hmul : comps.length * (L + 1) ≤ i * (L + 1) :=
            Nat.mul_le_mul_right _ (by omega)
          omega
        · rw [hlen]
          simp [compound]
      rw [if_neg hlt]
  · have hcond : ¬ ((0 : Int) ≤ n ∧ n < (comps.length : Int)) := fun h => hn h.1
    rw [if_neg hcond]
    have hneg : n * ((L : Int) + 1) < 0 :=
      Int.mul_neg_of_neg_of_pos (by omega) (by omega)
    have hbig := toSizeT_of_neg _ hp0 hneg
    rw [if_neg (by omega)]

/-- C22 (amended): for every compound string made of `k` components of equal
length `Len ≥ 0` separated by single spaces (shorter than `2^63` characters),
and every `n` for which the position `n * (Len + 1)` fits the 32-bit `int`,
`parse` returns the `n`-th component (0-based) when `0 ≤ n < k` and the empty
string when `n ≥ k` or `n` is negative; `months` is the compound string of the
twelve abbreviations, and `monthNumToStr m` is the `m`-th 3-letter month
abbreviation for every `m` in 1..12 and the empty string for every other `m`. -/
theorem parse_nth_component (Len : Int) (comps : List LogString) (n : Int)
    (hLen0 : 0 ≤ Len) (hLen1 : Len + 1 < 2147483648)
    (hcomp : ∀ c ∈ comps, (c.length : Int) = Len)
    (hp0 : -2147483648 ≤ n * (Len + 1)) (hp1 : n * (Len + 1) < 2147483648)
    (hsize : (compound comps).length < 9223372036854775808) :
    DefStr.Parser.parse Len (compound comps) n
        = (if 0 ≤ n ∧ n < comps.length then comps.getD n.toNat [] else []) ∧
    DefStr.months
        = compound ((List.range 12).map (fun i => (monthAbbrev ((i : Int) + 1)).toList)) ∧
    (∀ m : Int, monthNumToStr m = (monthAbbrev m).toList) ∧
    (∀ m : Int, ¬ (1 ≤ m ∧ m ≤ 12) → monthNumToStr m = []) := by
  obtain ⟨L, rfl⟩ := Int.eq_ofNat_of_zero_le hLen0
  refine ⟨parse_compound L comps n hLen1 (fun c hc => by exact_mod_cast hcomp c hc) hp0 hp1
    hsize, by decide, monthNumToStr_eq, ?_⟩
  intro m hm
  rw [monthNumToStr_eq, monthAbbrev_outside m hm]
  rfl

/-- Witness of `parse_nth_component`: the third of the six level names. -/
theorem parse_nth_component_witness :
    DefStr.Parser.parse 5
        (compound ["TRACE".toList, "DEBUG".toList, "INFO ".toList, "WARN ".toList,
          "ERROR".toList, "FATAL".toList]) 2
      = "INFO ".toList ∧
    DefStr.levels
      = compound ["TRACE".toList, "DEBUG".toList, "INFO ".toList, "WARN ".toList,
          "ERROR".toList, "FATAL".toList] :=
  ⟨(parse_nth_component 5
      ["TRACE".toList, "DEBUG".toList, "INFO ".toList, "WARN ".toList, "ERROR".toList,
        "FATAL".toList] 2
      (by decide) (by decide) (by decide) (by decide) (by decide) (by decide)).1,
    by decide⟩

/-- C22 fails as stated where the position `n * (Len + 1)` leaves the 32-bit
`int`: on the twelve months, `n = 2^30` is past the last component and yet
gives "Jan" (the position wraps to 0), and the negative `n = -(2^30 - 1)`
gives "Feb" (the position wraps to 4). -/
theorem parse_nth_component_counterexample :
    strMonth 1073741824 = "Jan".toList ∧ strMonth (-1073741823) = "Feb".toList ∧
    DefStr.months
      = compound ((List.range 12).map (fun i => (monthAbbrev ((i : Int) + 1)).toList)) := by
  exact ⟨by decide, by decide, by decide⟩

/-! ## C21 : the buffer is never cleared -/

theorem renderAll_append (xs ys : List Value) :
    ∀ f : Format, renderAll f (xs ++ ys)
      = renderAll f xs ++ renderAll (xs.foldl Format.after f) ys := by
  induction xs with
  | nil => intro f; simp [renderAll]
  | cons x rest ih =>
    intro f
    rw [List.cons_append, renderAll, renderAll, ih, List.append_assoc, List.foldl_cons]

theorem putInt_format (ss : StrStream) (v : Int) : ss.putInt v = renderNumber ss.format v := by
  cases hs : ss.showbase with
  | true =>
    rw [putInt_showbase ss hs v]
    simp [renderNumber, StrStream.format, hs]
  | false =>
    unfold StrStream.putInt renderNumber
    cases hb : ss.basefield <;> simp [StrStream.format, hs, hb]
    rfl

theorem append_str (ss : StrStream) (value : Value) :
    (Appender.append ss value).str = ss.str ++ renderValue ss.format value ∧
    (Appender.append ss value).format = ss.format.after value := by
  cases value with
  | text t => exact ⟨rfl, rfl⟩
  | int v => exact ⟨by simp only [Appender.append, renderValue, putInt_format], rfl⟩
  | bool b =>
    refine ⟨?_, rfl⟩
    simp only [Appender.append, renderValue, StrStream.putBool, putInt_format]
    rfl
  | control c => cases c <;> exact ⟨by simp [Appender.append, renderValue], rfl⟩
  | manip m => cases m <;> exact ⟨by simp [Appender.append, renderValue], rfl⟩

theorem foldl_append_str (values : List Value) :
    ∀ ss : StrStream,
      (values.foldl Appender.append ss).str = ss.str ++ renderAll ss.format values ∧
      (values.foldl Appender.append ss).format = values.foldl Format.after ss.format := by
  induction values with
  | nil => intro ss; simp [renderAll]
  | cons value rest ih =>
    intro ss
    obtain ⟨h1, h2⟩ := append_str ss value
    obtain ⟨h3, h4⟩ := ih (Appender.append ss value)
    rw [List.foldl_cons, List.foldl_cons, h3, h4, h1, h2, renderAll, List.append_assoc]
    exact ⟨rfl, rfl⟩

/-- C21 (amended): `append` never clears the buffer and keeps no finalized state.
From a fresh accumulator, the appends `values` and the terminal append `last`
hand the logger instance one message whose body is the concatenation of the
renderings of every value appended since construction, each in the format in
force when it is appended; further appends `values2` and a second terminal
append `last2` on the same accumulator hand the same instance a second message
whose body is the whole body of the first followed by the renderings of the
values appended since.  The first message is dispatched provided that the
logger instance exists already or every sink of its chain is in range at its
construction (a file sink that adds the date to its name being constructed at
a clock reading that its own `deltaUTC * 3600` shifts to less than
`86400 * (2^31 - 366)` in absolute value), and each message provided that date
printing is off or the clock reading at that append plus `deltaUTC * 3600` is
below `86400 * (2^31 - 366)` in absolute value, so that each year scan
returns. -/
theorem buffer_never_cleared (TOptions : Options) (TOutList : List (Out SinkType))
    (ctorClock : Nat → Int) (clock1 clock2 : Int) (fuel1 fuel2 : Nat)
    (m_instance : Option (Logger Sink)) (level : Level) (values : List Value) (last : Value)
    (values2 : List Value) (last2 : Value)
    (hinst : m_instance = none → chainInRange TOutList ctorClock fuel1)
    (hr1 : TOptions.printDate = true →
      -2147483648 ≤ TOptions.deltaUTC ∧ TOptions.deltaUTC < 2147483648 ∧
      -(86400 * 2147483282) < clock1 + TOptions.deltaUTC * 3600 ∧
      clock1 + TOptions.deltaUTC * 3600 < 86400 * 2147483282 ∧
      0 < fuel1 ∧ (clock1 + TOptions.deltaUTC * 3600) / 86400 < fuel1)
    (hr2 : TOptions.printDate = true →
      -2147483648 ≤ TOptions.deltaUTC ∧ TOptions.deltaUTC < 2147483648 ∧
      -(86400 * 2147483282) < clock2 + TOptions.deltaUTC * 3600 ∧
      clock2 + TOptions.deltaUTC * 3600 < 86400 * 2147483282 ∧
      0 < fuel2 ∧ (clock2 + TOptions.deltaUTC * 3600) / 86400 < fuel2) :
    ∃ (ma1 ma2 : MessageAccumulator) (addition1 addition2 : LogString)
      (logger : Logger Sink),
      (createLogEntry level).additionMsg TOptions clock1 fuel1 = some addition1 ∧
      ma1.additionMsg TOptions clock2 fuel2 = some addition2 ∧
      ma1.m_ss.str = renderAll Format.atConstruction (values ++ [last]) ∧
      ma2.m_ss.str
        = renderAll Format.atConstruction ((values ++ [last]) ++ (values2 ++ [last2])) ∧
      ma2.m_ss.str
        = ma1.m_ss.str
            ++ renderAll ((values ++ [last]).foldl Format.after Format.atConstruction)
                (values2 ++ [last2]) ∧
      Logger.instance TOutList ctorClock fuel1 m_instance = some logger ∧
      shiftAllThenLastStatic TOptions TOutList ctorClock clock1 fuel1 m_instance
          (createLogEntry level) values last
        = some (ma1, logger.log TOptions level (addition1 ++ ma1.m_ss.str), some logger) ∧
      ∀ ctorClock2 : Nat → Int,
        shiftAllThenLastStatic TOptions TOutList ctorClock2 clock2 fuel2 (some logger) ma1
            values2 last2
          = some (ma2, logger.log TOptions level (addition2 ++ ma2.m_ss.str), some logger) := by
  obtain ⟨d1, hd1⟩ := printed_date_returns TOptions clock1 fuel1 hr1
  obtain ⟨d2, hd2⟩ := printed_date_returns TOptions clock2 fuel2 hr2
  obtain ⟨logger, hi⟩ := instance_returns TOutList ctorClock fuel1 m_instance hinst
  obtain ⟨hstr1, hfmt1⟩ := foldl_append_str (values ++ [last]) (createLogEntry level).m_ss
  obtain ⟨hstr2, _⟩ := foldl_append_str (values2 ++ [last2])
    ((values ++ [last]).foldl Appender.append (createLogEntry level).m_ss)
  have hfresh : (createLogEntry level).m_ss.format = Format.atConstruction := rfl
  rw [hfmt1, hfresh] at hstr2
  have hstr1' : ((values ++ [last]).foldl Appender.append (createLogEntry level).m_ss).str
      = renderAll Format.atConstruction (values ++ [last]) := by
    rw [hstr1, hfresh]
    rfl
  have h1 := shiftAllThenLastStatic_eq TOptions TOutList ctorClock clock1 fuel1 m_instance
    (createLogEntry level) values last logger d1 hi hd1
  generalize hS1 : (values ++ [last]).foldl Appender.append (createLogEntry level).m_ss = S1
    at hstr1' hstr2 h1
  refine ⟨{ m_level := level, m_ss := S1 },
    { m_level := level, m_ss := (values2 ++ [last2]).foldl Appender.append S1 }, _, _, logger,
    additionMsg_eq TOptions clock1 fuel1 (createLogEntry level) d1 hd1,
    additionMsg_eq TOptions clock2 fuel2 { m_level := level, m_ss := S1 } d2 hd2,
    hstr1', ?_, hstr2, hi, h1, ?_⟩
  · rw [hstr2, hstr1', renderAll_append (values ++ [last]) (values2 ++ [last2])]
  · intro ctorClock2
    exact shiftAllThenLastStatic_eq TOptions TOutList ctorClock2 clock2 fuel2 (some logger)
      { m_level := level, m_ss := S1 } values2 last2 logger d2 rfl hd2

/-- Witness of `buffer_never_cleared`: the first use of the `CharLogger` chain
with its options, `ALOG::trace() << "ALOG " <<= 888` at 2001-09-09 01:46:40 and
a second terminal append 999 on the same accumulator one second later; the two
messages end in "ALOG 888" and "ALOG 888999". -/
theorem buffer_never_cleared_witness :
    (∃ (ma1 ma2 : MessageAccumulator) (addition1 addition2 : LogString)
      (logger : Logger Sink),
      (createLogEntry Level.TRACE).additionMsg CharLogger.Options 1000000000 12000
        = some addition1 ∧
      ma1.additionMsg CharLogger.Options 1000000001 12000 = some addition2 ∧
      ma1.m_ss.str
        = renderAll Format.atConstruction ([Value.text "ALOG ".toList] ++ [Value.int 888]) ∧
      ma2.m_ss.str
        = renderAll Format.atConstruction
            (([Value.text "ALOG ".toList] ++ [Value.int 888]) ++ ([] ++ [Value.int 999])) ∧
      ma2.m_ss.str
        = ma1.m_ss.str
            ++ renderAll
                (([Value.text "ALOG ".toList] ++ [Value.int 888]).foldl Format.after
                  Format.atConstruction)
                ([] ++ [Value.int 999]) ∧
      Logger.instance CharLogger.TOutList (fun _ => 1000000000) 12000 none = some logger ∧
      shiftAllThenLastStatic CharLogger.Options CharLogger.TOutList (fun _ => 1000000000)
          1000000000 12000 none (createLogEntry Level.TRACE) [Value.text "ALOG ".toList]
          (Value.int 888)
        = some (ma1, logger.log CharLogger.Options Level.TRACE (addition1 ++ ma1.m_ss.str),
            some logger) ∧
      ∀ ctorClock2 : Nat → Int,
        shiftAllThenLastStatic CharLogger.Options CharLogger.TOutList ctorClock2 1000000001
            12000 (some logger) ma1 [] (Value.int 999)
          = some (ma2, logger.log CharLogger.Options Level.TRACE (addition2 ++ ma2.m_ss.str),
              some logger)) ∧
    (shiftAllThenLastStatic CharLogger.Options CharLogger.TOutList (fun _ => 1000000000)
        1000000000 12000 none (createLogEntry Level.TRACE) [Value.text "ALOG ".toList]
        (Value.int 888)).map (fun r => (r.1, r.2.1))
      = some ({ m_level := Level.TRACE,
                m_ss := { str := "ALOG 888".toList, basefield := Base.dec, showbase := true,
                          boolalpha := true } },
          [⟨Sink.StdFileSink
              { filename := "./myapp_log-2001_Sep_09-04:46:40".toList,
                mode := { out := true, trunc := true, app := false } },
            Level.TRACE, "[TRACE] [2001 Sep 09] [04:46:40] ALOG 888".toList⟩,
           ⟨Sink.CoutSink, Level.TRACE,
            "[TRACE] [2001 Sep 09] [04:46:40] ALOG 888".toList⟩]) ∧
    (shiftAllThenLastStatic CharLogger.Options CharLogger.TOutList (fun _ => 0) 1000000001
        12000
        (some ⟨CharLogger.OutList
          { filename := "./myapp_log-2001_Sep_09-04:46:40".toList,
            mode := { out := true, trunc := true, app := false } }⟩)
        { m_level := Level.TRACE,
          m_ss := { str := "ALOG 888".toList, basefield := Base.dec, showbase := true,
                    boolalpha := true } }
        [] (Value.int 999)).map (fun r => (r.1, r.2.1))
      = some ({ m_level := Level.TRACE,
                m_ss := { str := "ALOG 888999".toList, basefield := Base.dec, showbase := true,
                          boolalpha := true } },
          [⟨Sink.StdFileSink
              { filename := "./myapp_log-2001_Sep_09-04:46:40".toList,
                mode := { out := true, trunc := true, app := false } },
            Level.TRACE, "[TRACE] [2001 Sep 09] [04:46:41] ALOG 888999".toList⟩,
           ⟨Sink.CoutSink, Level.TRACE,
            "[TRACE] [2001 Sep 09] [04:46:41] ALOG 888999".toList⟩]) :=
  ⟨buffer_never_cleared CharLogger.Options CharLogger.TOutList (fun _ => 1000000000)
      1000000000 1000000001 12000 12000 none Level.TRACE
      [Value.text "ALOG ".toList] (Value.int 888) [] (Value.int 999)
      (fun _ => by decide)
      (fun _ => ⟨by decide, by decide, by decide, by decide, by decide, by decide⟩)
      (fun _ => ⟨by decide, by decide, by decide, by decide, by decide, by decide⟩),
    by decide, by decide⟩

/-- C21 fails as stated when the second terminal append falls on the clock
reading `86400 * (2^31 - 1)` with date printing on: the first message, ending
in "MLOG 888", is dispatched, but the year scan inside `additionMsg` never
returns for the second, which is not dispatched whatever the fuel.  And with
date and time printing off, on the first use of the `CharLogger` chain while
the clock reads `86400 * (2^31 - 1) - 3 * 3600`, `Logger::instance()` never
returns from the construction of the file sink, so not even the first message
is dispatched. -/
theorem buffer_never_cleared_counterexample :
    (shiftAllThenLastStatic Options.default MinLogger.TOutList (fun _ => 1000000000)
        1000000000 64 none (createLogEntry Level.TRACE) [Value.text "MLOG ".toList]
        (Value.int 888)).map (fun r => (r.1, r.2.1))
      = some ({ m_level := Level.TRACE,
                m_ss := { str := "MLOG 888".toList, basefield := Base.dec, showbase := true,
                          boolalpha := true } },
          [⟨Sink.CoutSink, Level.TRACE,
            "[TRACE] [2001 Sep 09] [01:46:40] MLOG 888".toList⟩]) ∧
    (¬ ∃ (fuel : Nat) (r : MessageAccumulator × List (SinkCall Sink) × Option (Logger Sink)),
        shiftAllThenLastStatic Options.default MinLogger.TOutList (fun _ => 0)
          185542587100800 fuel (some ⟨MinLogger.OutList⟩)
          { m_level := Level.TRACE,
            m_ss := { str := "MLOG 888".toList, basefield := Base.dec, showbase := true,
                      boolalpha := true } }
          [] (Value.int 999)
          = some r) ∧
    ¬ ∃ (fuel : Nat) (r : MessageAccumulator × List (SinkCall Sink) × Option (Logger Sink)),
        shiftAllThenLastStatic
          { CharLogger.Options with printDate := false, printTime := false }
          CharLogger.TOutList (fun _ => 185542587090000) 185542587090000 fuel none
          (createLogEntry Level.TRACE) [Value.text "ALOG ".toList] (Value.int 888)
          = some r := by
  refine ⟨by decide, ?_, ?_⟩
  · rintro ⟨fuel, r, h⟩
    simp only [shiftAllThenLastStatic, shiftAllStatic_eq, MessageAccumulator.appendStatic,
      if_true, Logger.instance] at h
    rw [additionMsg_never_returns Options.default 185542587100800 _ rfl (by decide) fuel] at h
    exact Option.noConfusion h
  · rintro ⟨fuel, r, h⟩
    simp only [shiftAllThenLastStatic, shiftAllStatic_eq, MessageAccumulator.appendStatic,
      if_true, instance_never_returns fuel] at h
    exact Option.noConfusion h

end Logger
